import Mathlib

/-!
# A simple ray tracer (task.c): shallow embedding

The C program works on `float`s.  The embedding idealises `float` as an arbitrary
linearly ordered field `α` (exact arithmetic); the library function `sqrtf` is not
part of the program and is taken as a parameter `sqrtf : α → α`.  Where a property
needs the square root to be exact this is an explicit hypothesis.  `int` values are
mathematical integers.

The three `pthread`s started per closest-hit query are modelled in index order
0, 1, 2; the `pthread` started per shadow test is joined at once, so that loop is
sequential in the program itself.
-/

namespace Task

variable {α : Type} [LinearOrderedField α]

/-! ## Data model -/

/-- The vector structure. -/
structure vector (α : Type) where
  x : α
  y : α
  z : α

/-- The sphere. -/
structure sphere (α : Type) where
  pos : vector α
  radius : α
  material : Int

/-- The ray. -/
structure ray (α : Type) where
  start : vector α
  dir : vector α

/-- Colour. -/
structure colour (α : Type) where
  red : α
  green : α
  blue : α

/-- Material definition. -/
structure material (α : Type) where
  diffuse : colour α
  reflection : α

/-- Lightsource definition. -/
structure light (α : Type) where
  pos : vector α
  intensity : colour α

/-! ## Vector math -/

/-- Subtract two vectors and return the resulting vector. -/
def vectorSub (v1 v2 : vector α) : vector α :=
  ⟨v1.x - v2.x, v1.y - v2.y, v1.z - v2.z⟩

/-- Multiply two vectors and return the resulting scalar (dot product). -/
def vectorDot (v1 v2 : vector α) : α :=
  v1.x * v2.x + v1.y * v2.y + v1.z * v2.z

/-- Calculate Vector x Scalar and return resulting Vector. -/
def vectorScale (c : α) (v : vector α) : vector α :=
  ⟨v.x * c, v.y * c, v.z * c⟩

/-- Add two vectors and return the resulting vector. -/
def vectorAdd (v1 v2 : vector α) : vector α :=
  ⟨v1.x + v2.x, v1.y + v2.y, v1.z + v2.z⟩

/-! ## Ray / sphere intersection -/

/-- The self-intersection epsilon `0.001f`. -/
def epsilon : α := 1 / 1000

/-- Check if the ray and sphere intersect.  The result is the returned `bool`
together with the value of `*t` after the call. -/
def intersectRaySphere (sqrtf : α → α) (r : ray α) (s : sphere α) (t : α) : Bool × α :=
  let A := vectorDot r.dir r.dir
  let dist := vectorSub r.start s.pos
  let B := 2 * vectorDot r.dir dist
  let C := vectorDot dist dist - s.radius * s.radius
  let discr := B * B - 4 * A * C
  if discr < 0 then
    (false, t)
  else
    let sqrtdiscr := sqrtf discr
    let t0 := (-B + sqrtdiscr) / 2
    let t1 := (-B - sqrtdiscr) / 2
    let t0 := if t0 > t1 then t1 else t0
    if t0 > epsilon ∧ t0 < t then (true, t0) else (false, t)

/-! ### The quantities the specification names -/

/-- The discriminant `B*B - 4*A*C` of the quadratic of ray `r` and sphere `s`. -/
def discriminant (r : ray α) (s : sphere α) : α :=
  (2 * vectorDot r.dir (vectorSub r.start s.pos)) * (2 * vectorDot r.dir (vectorSub r.start s.pos))
    - 4 * vectorDot r.dir r.dir
      * (vectorDot (vectorSub r.start s.pos) (vectorSub r.start s.pos) - s.radius * s.radius)

/-- The candidate distance: the smaller of the two roots `(-B + sqrt discr)/2` and
`(-B - sqrt discr)/2`. -/
def candidate (sqrtf : α → α) (r : ray α) (s : sphere α) : α :=
  Min.min ((-(2 * vectorDot r.dir (vectorSub r.start s.pos)) + sqrtf (discriminant r s)) / 2)
      ((-(2 * vectorDot r.dir (vectorSub r.start s.pos)) - sqrtf (discriminant r s)) / 2)

/-! ## The macros and globals -/

/-- The macro `min(a,b) (((a) < (b)) ? (a) : (b))`. -/
def min (a b : α) : α := if a < b then a else b

/-- The globals `scale`, `threads` and `output` set from the command line. -/
structure config where
  scale : Int
  threads : Int
  output : Int

/-- The initial values of the globals: `scale = 1`, `threads = 1`, `output = 0`. -/
def defaultConfig : config := ⟨1, 1, 0⟩

/-- The macro `WIDTH`. -/
def WIDTH (c : config) : Int := 800 * c.scale

/-- The macro `HEIGHT`. -/
def HEIGHT (c : config) : Int := 600 * c.scale

/-- One turn of the loop of `readArgs` at index `i` over `argv`; `sscanf` stands for
`sscanf(_, "%d", _)`, which leaves the variable as it is when nothing is read.
Reading `argv[i+1]` past the end of `argv` is undefined (`none`). -/
def readArgsStep (sscanf : String → Option Int) (argv : List String) (c : Option config)
    (i : Nat) : Option config :=
  match c, argv.get? i with
  | some c, some a =>
    let c1 : Option config :=
      if a = "-s" then
        (argv.get? (i + 1)).map (fun v => ⟨(sscanf v).getD c.scale, c.threads, c.output⟩)
      else some c
    let c2 : Option config :=
      if a = "-t" then
        c1.bind (fun c => (argv.get? (i + 1)).map
          (fun v => ⟨c.scale, (sscanf v).getD c.threads, c.output⟩))
      else c1
    if a = "-o" then c2.map (fun c => ⟨c.scale, c.threads, 1⟩) else c2
  | _, _ => none

/-- The function `readArgs`: the loop `for (i=1; i<argc; i++)` over the arguments. -/
def readArgs (sscanf : String → Option Int) (argv : List String) (c : config) : Option config :=
  ((List.range argv.length).tail).foldl (readArgsStep sscanf argv) (some c)

/-! ## The scene -/

/-- The arrays `spheres[3]`, `materials[3]` and `lights[3]`. -/
structure scene (α : Type) where
  spheres : Fin 3 → sphere α
  materials : Fin 3 → material α
  lights : Fin 3 → light α

/-- An `int` used as an index into an array of three elements; outside `0..2`
the access is undefined. -/
def index3 (i : Int) : Option (Fin 3) :=
  if i = 0 then some 0 else if i = 1 then some 1 else if i = 2 then some 2 else none

/-- The array `materials` as `main` fills it. -/
def mainMaterials : Fin 3 → material α :=
  ![⟨⟨1, 0, 0⟩, 2 / 10⟩, ⟨⟨0, 1, 0⟩, 5 / 10⟩, ⟨⟨0, 0, 1⟩, 9 / 10⟩]

/-- The array `spheres` as `main` fills it. -/
def mainSpheres (scale : Int) : Fin 3 → sphere α :=
  ![⟨⟨((200 * scale : Int) : α), ((300 * scale : Int) : α), ((0 * scale : Int) : α)⟩,
      ((100 * scale : Int) : α), 0⟩,
    ⟨⟨((400 * scale : Int) : α), ((400 * scale : Int) : α), ((0 * scale : Int) : α)⟩,
      ((100 * scale : Int) : α), 1⟩,
    ⟨⟨((500 * scale : Int) : α), ((140 * scale : Int) : α), ((0 * scale : Int) : α)⟩,
      ((100 * scale : Int) : α), 2⟩]

/-- The array `lights` as `main` fills it. -/
def mainLights (scale : Int) : Fin 3 → light α :=
  ![⟨⟨((0 * scale : Int) : α), ((240 * scale : Int) : α), ((-100 * scale : Int) : α)⟩,
      ⟨1, 1, 1⟩⟩,
    ⟨⟨((3200 * scale : Int) : α), ((3000 * scale : Int) : α), ((-1000 * scale : Int) : α)⟩,
      ⟨6 / 10, 7 / 10, 1⟩⟩,
    ⟨⟨((600 * scale : Int) : α), ((0 * scale : Int) : α), ((-100 * scale : Int) : α)⟩,
      ⟨3 / 10, 5 / 10, 1⟩⟩]

/-- The scene `main` sets up for a given `scale`. -/
def mainScene (scale : Int) : scene α :=
  ⟨mainSpheres scale, mainMaterials, mainLights scale⟩

/-! ## Closest intersection -/

/-- The locals `t` and `currentSphere` of one bounce, which the closest-hit threads
update through `tPtr` and `currentSpherePtr`. -/
structure hitState (α : Type) where
  t : α
  currentSphere : Int

/-- The thread function `closestIntersection`: tests the global ray `r` against the
sphere passed; on a hit `*t` is updated by `intersectRaySphere` and `currentSphere`
becomes the thread id. -/
def closestIntersection (sqrtf : α → α) (r : ray α) (threadId : Nat) (s : sphere α)
    (st : hitState α) : hitState α :=
  if (intersectRaySphere sqrtf r s st.t).1 = true then
    ⟨(intersectRaySphere sqrtf r s st.t).2, (threadId : Int)⟩
  else
    ⟨(intersectRaySphere sqrtf r s st.t).2, st.currentSphere⟩

/-- The closest-hit query of one bounce: `t = 20000`, `currentSphere = -1`, then the
three `closestIntersection` calls for `i = 0, 1, 2`, taken in index order. -/
def closestHit (sqrtf : α → α) (spheres : Fin 3 → sphere α) (r : ray α) : hitState α :=
  ([0, 1, 2] : List (Fin 3)).foldl
    (fun st i => closestIntersection sqrtf r i.val (spheres i) st) ⟨20000, -1⟩

/-! ## Shadows -/

/-- The locals `inShadow` and `t` of one light, which the shadow threads update. -/
structure shadowState (α : Type) where
  inShadow : Bool
  t : α

/-- The thread function `shadow`. -/
def shadow (sqrtf : α → α) (lightRay : ray α) (s : sphere α) (st : shadowState α) :
    shadowState α :=
  if (intersectRaySphere sqrtf lightRay s st.t).1 = true then
    ⟨true, (intersectRaySphere sqrtf lightRay s st.t).2⟩
  else
    ⟨st.inShadow, (intersectRaySphere sqrtf lightRay s st.t).2⟩

/-- The loop `for(k = 0; k < 3; ++k)` over the indices still to visit: each turn runs
`shadow` on sphere `k` and breaks when `inShadow` is set.  The result is the state
when the loop is left and the indices `k` for which a `shadow` thread was started,
in order. -/
def shadowLoop (sqrtf : α → α) (spheres : Fin 3 → sphere α) (lightRay : ray α) :
    List (Fin 3) → shadowState α → shadowState α × List (Fin 3)
  | [], st => (st, [])
  | k :: ks, st =>
    if (shadow sqrtf lightRay (spheres k) st).inShadow = true then
      (shadow sqrtf lightRay (spheres k) st, [k])
    else
      ((shadowLoop sqrtf spheres lightRay ks (shadow sqrtf lightRay (spheres k) st)).1,
        k :: (shadowLoop sqrtf spheres lightRay ks (shadow sqrtf lightRay (spheres k) st)).2)

/-- The shadow query of one light: `inShadow = false`, then the loop from `k = 0`. -/
def shadowQuery (sqrtf : α → α) (spheres : Fin 3 → sphere α) (lightRay : ray α) (t : α) :
    shadowState α × List (Fin 3) :=
  shadowLoop sqrtf spheres lightRay [0, 1, 2] ⟨false, t⟩

/-- The shadow test as the specification words it, without early exit: every sphere
is tested against the original, unmodified light distance `t`. -/
def shadowAll (sqrtf : α → α) (spheres : Fin 3 → sphere α) (lightRay : ray α) (t : α) : Bool :=
  ([0, 1, 2] : List (Fin 3)).any (fun k => (intersectRaySphere sqrtf lightRay (spheres k) t).1)

/-! ## The bounce loop of one pixel -/

/-- The state one pixel carries across bounces: the global ray `r` and the locals
`coef`, `level`, `red`, `green`, `blue`. -/
structure traceState (α : Type) where
  r : ray α
  coef : α
  level : Int
  red : α
  green : α
  blue : α

/-- One turn of the loop `for(j=0; j < 3; j++)` over the lights, at hit point
`newStart` with normal `n`, material `currentMat` and attenuation `coef`; `c` holds
`red`, `green`, `blue`. -/
def lightStep (sqrtf : α → α) (spheres : Fin 3 → sphere α) (newStart n : vector α)
    (currentMat : material α) (coef : α) (c : colour α) (currentLight : light α) : colour α :=
  let dist := vectorSub currentLight.pos newStart
  if vectorDot n dist ≤ 0 then c
  else
    let t := sqrtf (vectorDot dist dist)
    if t ≤ 0 then c
    else
      let lightRay : ray α := ⟨newStart, vectorScale (1 / t) dist⟩
      if (shadowQuery sqrtf spheres lightRay t).1.inShadow = true then c
      else
        let lambert := vectorDot lightRay.dir n * coef
        ⟨c.red + lambert * currentLight.intensity.red * currentMat.diffuse.red,
         c.green + lambert * currentLight.intensity.green * currentMat.diffuse.green,
         c.blue + lambert * currentLight.intensity.blue * currentMat.diffuse.blue⟩

/-- How one execution of the body of the `do ... while` loop ends: by one of its two
`break`s, at the loop condition, or in an out-of-range array access. -/
inductive bodyResult (α : Type) where
  | brk (st : traceState α)
  | cont (st : traceState α)
  | undef

/-- The loop `for(j=0; j < 3; j++)` over the three lights. -/
def lightLoop (sqrtf : α → α) (sc : scene α) (newStart n : vector α)
    (currentMat : material α) (coef : α) (c : colour α) : colour α :=
  ([0, 1, 2] : List (Fin 3)).foldl
    (fun c j => lightStep sqrtf sc.spheres newStart n currentMat coef c (sc.lights j)) c

/-- The end of the loop body, from the light loop on: the lights are added up, `coef`
is multiplied by the reflection of the material, the ray becomes the reflected ray
and `level` is incremented. -/
def shadeAndReflect (sqrtf : α → α) (sc : scene α) (st : traceState α)
    (newStart n : vector α) (currentMat : material α) : traceState α :=
  let c := lightLoop sqrtf sc newStart n currentMat st.coef ⟨st.red, st.green, st.blue⟩
  let coef := st.coef * currentMat.reflection
  let reflect := 2 * vectorDot st.r.dir n
  let tmp := vectorScale reflect n
  ⟨⟨newStart, vectorSub st.r.dir tmp⟩, coef, st.level + 1, c.red, c.green, c.blue⟩

/-- The loop body after the closest-hit query found sphere `currentSphere` at
distance `t`: hit point, normal (with the `break` on a degenerate normal), material
lookup, then `shadeAndReflect`. -/
def bounceAt (sqrtf : α → α) (sc : scene α) (st : traceState α) (t : α)
    (currentSphere : Fin 3) : bodyResult α :=
  let scaled := vectorScale t st.r.dir
  let newStart := vectorAdd st.r.start scaled
  let n := vectorSub newStart (sc.spheres currentSphere).pos
  let temp := vectorDot n n
  if temp = 0 then .brk st
  else
    let temp := 1 / sqrtf temp
    let n := vectorScale temp n
    match index3 (sc.spheres currentSphere).material with
    | none => .undef
    | some m => .cont (shadeAndReflect sqrtf sc st newStart n (sc.materials m))

/-- The body of the `do ... while` loop of one pixel. -/
def bounceBody (sqrtf : α → α) (sc : scene α) (st : traceState α) : bodyResult α :=
  if (closestHit sqrtf sc.spheres st.r).currentSphere = -1 then .brk st
  else
    match index3 (closestHit sqrtf sc.spheres st.r).currentSphere with
    | none => .undef
    | some cs => bounceAt sqrtf sc st (closestHit sqrtf sc.spheres st.r).t cs

/-- How the `do ... while` loop ends: the fuel given did not suffice, an array
access was out of range, or the loop was left in state `st` after `bounces`
executions of its body. -/
inductive loopResult (α : Type) where
  | outOfFuel
  | undef
  | done (st : traceState α) (bounces : Nat)

/-- The loop `do { ... } while((coef > 0.0f) && (level < 15))`, with fuel. -/
def bounceLoop (sqrtf : α → α) (sc : scene α) : Nat → traceState α → loopResult α
  | 0, _ => .outOfFuel
  | fuel + 1, st =>
    match bounceBody sqrtf sc st with
    | .undef => .undef
    | .brk st1 => .done st1 1
    | .cont st1 =>
      if st1.coef > 0 ∧ st1.level < 15 then
        match bounceLoop sqrtf sc fuel st1 with
        | .done st2 k => .done st2 (k + 1)
        | res => res
      else .done st1 1

/-- The state at the head of the loop for pixel `(x, y)`, reached with global ray
`r`: `red = green = blue = 0`, `level = 0`, `coef = 1.0`, and the six assignments
`r.start.x = x`, `r.start.y = y`, `r.start.z = -2000`, `r.dir.x = 0`, `r.dir.y = 0`,
`r.dir.z = 1`. -/
def initialState (r : ray α) (x y : Nat) : traceState α :=
  ⟨{ start := { r.start with x := (x : α), y := (y : α), z := -2000 },
     dir := { r.dir with x := 0, y := 0, z := 1 } }, 1, 0, 0, 0, 0⟩

/-! ## Writing the pixel -/

section Framebuffer

variable [FloorRing α]

/-- The conversion `(unsigned char)v` of a `float`: the fractional part is discarded
(truncation toward zero); when the integral part is not in `0..255` the conversion
is undefined (`none`). -/
def toUnsignedChar (v : α) : Option Nat :=
  if 0 ≤ (if 0 ≤ v then ⌊v⌋ else ⌈v⌉) ∧ (if 0 ≤ v then ⌊v⌋ else ⌈v⌉) ≤ 255 then
    some (if 0 ≤ v then ⌊v⌋ else ⌈v⌉).toNat
  else none

/-- The byte stored for one channel: `(unsigned char)min(channel*255.0f, 255.0f)`. -/
def channelByte (channel : α) : Option Nat :=
  toUnsignedChar (min (channel * 255) 255)

/-- The three stores into `img` for pixel `(x, y)`, in program order, as pairs of an
index and the byte stored. -/
def pixelStores (c : config) (x y : Nat) (st : traceState α) : List (Int × Option Nat) :=
  [(((x : Int) + (y : Int) * WIDTH c) * 3 + 0, channelByte st.red),
   (((x : Int) + (y : Int) * WIDTH c) * 3 + 1, channelByte st.green),
   (((x : Int) + (y : Int) * WIDTH c) * 3 + 2, channelByte st.blue)]

/-- The state of `main` during the render loops: the global ray `r` and the stores
made into `img` so far, latest first. -/
structure mainState (α : Type) where
  r : ray α
  img : List (Int × Option Nat)

/-- The body of the loop over `x`: the pixel `(x, y)` is traced from its initial
state and its three bytes are stored.  The `do ... while` loop is run with fuel 15
(`bounceLoop_bound` shows that this is enough for it to end).  `none` when the
trace makes an out-of-range array access. -/
def pixelIteration (sqrtf : α → α) (c : config) (sc : scene α) (y : Nat)
    (ms : Option (mainState α)) (x : Nat) : Option (mainState α) :=
  match ms with
  | none => none
  | some ms =>
    match bounceLoop sqrtf sc 15 (initialState ms.r x y) with
    | .done st _ => some ⟨st.r, (pixelStores c x y st).reverse ++ ms.img⟩
    | _ => none

/-- The render loops of `main`: `for(y=0;y<HEIGHT;y++)  for(x=0;x<WIDTH;x++)`,
started with global ray `r0` and nothing stored in `img`. -/
def render (sqrtf : α → α) (c : config) (r0 : ray α) : Option (mainState α) :=
  (List.range (HEIGHT c).toNat).foldl
    (fun ms y => (List.range (WIDTH c).toNat).foldl
      (pixelIteration sqrtf c (mainScene c.scale) y) ms)
    (some ⟨r0, []⟩)

/-- The byte `img[i]` after the stores `img`: the latest store to index `i`;
`none` when nothing was stored there or the stored value is undefined. -/
def load (img : List (Int × Option Nat)) (i : Int) : Option Nat :=
  match img.find? (fun p => p.1 = i) with
  | some p => p.2
  | none => none

/-- The byte `b` is the channel `v` scaled by 255 and clamped to `[0, 255]`, as the
specification words it: 255 when the scaled value exceeds 255, 0 when it is below 0,
its integer part otherwise. -/
def clampedTo (v : α) (b : Option Nat) : Prop :=
  (255 < v * 255 → b = some 255) ∧
  (v * 255 < 0 → b = some 0) ∧
  (0 ≤ v * 255 → v * 255 ≤ 255 → b = some ⌊v * 255⌋.toNat)

/-- The pixels `(x, y)` in the order of the render loops of `main`: row by row, each
row by increasing `x`. -/
def rowMajor (c : config) : List (Nat × Nat) :=
  (List.range (HEIGHT c).toNat).flatMap
    (fun y => (List.range (WIDTH c).toNat).map (fun x => (x, y)))

/-- The render as the specification words it, for any order of visiting the pixels:
the body of the pixel loop is run for the pixels `(x, y)` of `order` in turn. -/
def renderOrder (sqrtf : α → α) (c : config) (sc : scene α) (order : List (Nat × Nat))
    (ms : Option (mainState α)) : Option (mainState α) :=
  order.foldl (fun ms p => pixelIteration sqrtf c sc p.2 ms p.1) ms

/-- Two outcomes of a render hold the same framebuffer: both are undefined, or every
byte `img[i]` is the same in both. -/
def sameImage (s1 s2 : Option (mainState α)) : Prop :=
  match s1, s2 with
  | some a, some b => ∀ i : Int, load a.img i = load b.img i
  | none, none => True
  | _, _ => False

end Framebuffer

/-! ## The quantities the specification names, continued -/

/-- Sphere `s` has a candidate distance for ray `r` strictly between `lo` and `hi`:
the discriminant is non-negative and the candidate root lies in the open interval. -/
def hasCandidate (sqrtf : α → α) (r : ray α) (s : sphere α) (lo hi : α) : Prop :=
  0 ≤ discriminant r s ∧ lo < candidate sqrtf r s ∧ candidate sqrtf r s < hi

instance (sqrtf : α → α) (r : ray α) (s : sphere α) (lo hi : α) :
    Decidable (hasCandidate sqrtf r s lo hi) :=
  inferInstanceAs (Decidable (0 ≤ discriminant r s ∧ lo < candidate sqrtf r s ∧
    candidate sqrtf r s < hi))

/-- The invariant of the closest-hit loop when the spheres of index below `k` have
been tested: either nothing was hit so far, or `currentSphere` is the lowest index
among those that attain the least candidate distance seen, and `t` is that distance. -/
def closestInv (sqrtf : α → α) (spheres : Fin 3 → sphere α) (r : ray α) (k : Nat)
    (st : hitState α) : Prop :=
  (st.currentSphere = -1 ∧ st.t = 20000 ∧
      ∀ i : Fin 3, i.val < k → ¬ hasCandidate sqrtf r (spheres i) epsilon 20000) ∨
  (∃ j : Fin 3, j.val < k ∧ st.currentSphere = (j.val : Int) ∧
      hasCandidate sqrtf r (spheres j) epsilon 20000 ∧
      st.t = candidate sqrtf r (spheres j) ∧
      ∀ i : Fin 3, i.val < k → hasCandidate sqrtf r (spheres i) epsilon 20000 →
        candidate sqrtf r (spheres j) ≤ candidate sqrtf r (spheres i) ∧
        (candidate sqrtf r (spheres i) = candidate sqrtf r (spheres j) → j ≤ i))

/-- The square root is exact: on non-negative arguments `sqrtf x` is non-negative
and its square is `x`. -/
def exactSqrt (sqrtf : α → α) : Prop :=
  ∀ x : α, 0 ≤ x → 0 ≤ sqrtf x ∧ sqrtf x * sqrtf x = x

/-- The hit point `newStart = r.start + t * r.dir` of the loop body. -/
def hitPoint (r : ray α) (t : α) : vector α :=
  vectorAdd r.start (vectorScale t r.dir)

/-- The normalised normal `n` of the loop body at the hit point on sphere `s`. -/
def hitNormal (sqrtf : α → α) (r : ray α) (t : α) (s : sphere α) : vector α :=
  vectorScale
    (1 / sqrtf (vectorDot (vectorSub (hitPoint r t) s.pos) (vectorSub (hitPoint r t) s.pos)))
    (vectorSub (hitPoint r t) s.pos)

/-- The state the loop body leaves, whichever way it ends (the state it was entered
with when an array access is out of range). -/
def bodyNext (sqrtf : α → α) (sc : scene α) (st : traceState α) : traceState α :=
  match bounceBody sqrtf sc st with
  | .cont s => s
  | .brk s => s
  | .undef => st

/-- The state after `n` executions of the loop body from `st`: the bounce chain. -/
def stateAfter (sqrtf : α → α) (sc : scene α) (st : traceState α) : Nat → traceState α
  | 0 => st
  | n + 1 => bodyNext sqrtf sc (stateAfter sqrtf sc st n)

/-- A scene of three spheres of radius 100, two of them facing each other on the
line `x = y = 0`, all of one material with reflection `refl`, under the lights of
`main` at `scale = 1`. -/
def axisScene (refl : α) : scene α :=
  ⟨![⟨⟨0, 0, 0⟩, 100, 0⟩, ⟨⟨0, 0, -3000⟩, 100, 0⟩, ⟨⟨5000, 0, 0⟩, 100, 0⟩],
   ![⟨⟨1, 0, 0⟩, refl⟩, ⟨⟨0, 1, 0⟩, refl⟩, ⟨⟨0, 0, 1⟩, refl⟩],
   mainLights 1⟩

/-! ## The call of `intersectRaySphere` with its pointer arguments -/

/-- The three objects the pointer arguments `r`, `s` and `t` of `intersectRaySphere`
point to. -/
structure callMemory (α : Type) where
  r : ray α
  s : sphere α
  t : α

/-- The function `intersectRaySphere` on the memory its arguments point to: the
result is the returned `bool` and the memory after the call.  The only store of the
function is `*t = t0`. -/
def intersectRaySphereCall (sqrtf : α → α) (m : callMemory α) : Bool × callMemory α :=
  let A := vectorDot m.r.dir m.r.dir
  let dist := vectorSub m.r.start m.s.pos
  let B := 2 * vectorDot m.r.dir dist
  let C := vectorDot dist dist - m.s.radius * m.s.radius
  let discr := B * B - 4 * A * C
  if discr < 0 then
    (false, m)
  else
    let sqrtdiscr := sqrtf discr
    let t0 := (-B + sqrtdiscr) / 2
    let t1 := (-B - sqrtdiscr) / 2
    let t0 := if t0 > t1 then t1 else t0
    if t0 > epsilon ∧ t0 < m.t then (true, { m with t := t0 }) else (false, m)

/-! ## The divisions of the loop body -/

/-- A division executed by the loop body: `1.0f / sqrtf(temp)` for the normal, with
the value of `temp`, or `1/t` for a shadow ray, with the value of `t`. -/
inductive division (α : Type) where
  | normalise (temp : α)
  | lightRay (t : α)

/-- The division one turn of the light loop executes, if any: `1/t` is reached only
past the two `continue`s. -/
def lightDivisions (sqrtf : α → α) (newStart n : vector α) (currentLight : light α) :
    List (division α) :=
  let dist := vectorSub currentLight.pos newStart
  if vectorDot n dist ≤ 0 then []
  else
    let t := sqrtf (vectorDot dist dist)
    if t ≤ 0 then []
    else [.lightRay t]

/-- The divisions `bounceAt` executes, in program order: `1.0f / sqrtf(temp)` past the
`break` on `temp == 0`, then those of the light loop. -/
def bounceAtDivisions (sqrtf : α → α) (sc : scene α) (st : traceState α) (t : α)
    (currentSphere : Fin 3) : List (division α) :=
  let scaled := vectorScale t st.r.dir
  let newStart := vectorAdd st.r.start scaled
  let n := vectorSub newStart (sc.spheres currentSphere).pos
  let temp := vectorDot n n
  if temp = 0 then []
  else
    let temp1 := 1 / sqrtf temp
    let n := vectorScale temp1 n
    .normalise temp ::
      (match index3 (sc.spheres currentSphere).material with
      | none => []
      | some _ =>
        ([0, 1, 2] : List (Fin 3)).flatMap
          (fun j => lightDivisions sqrtf newStart n (sc.lights j)))

/-- The divisions one execution of the loop body executes, in program order. -/
def bodyDivisions (sqrtf : α → α) (sc : scene α) (st : traceState α) : List (division α) :=
  if (closestHit sqrtf sc.spheres st.r).currentSphere = -1 then []
  else
    match index3 (closestHit sqrtf sc.spheres st.r).currentSphere with
    | none => []
    | some cs => bounceAtDivisions sqrtf sc st (closestHit sqrtf sc.spheres st.r).t cs

/-- Every diffuse channel and reflection of the materials and every intensity
channel of the lights of the scene is non-negative. -/
def nonNegative (sc : scene α) : Prop :=
  (∀ i : Fin 3, 0 ≤ (sc.materials i).diffuse.red ∧ 0 ≤ (sc.materials i).diffuse.green ∧
    0 ≤ (sc.materials i).diffuse.blue ∧ 0 ≤ (sc.materials i).reflection) ∧
  (∀ i : Fin 3, 0 ≤ (sc.lights i).intensity.red ∧ 0 ≤ (sc.lights i).intensity.green ∧
    0 ≤ (sc.lights i).intensity.blue)

/-- The indices `n - 1, ..., 1, 0`: the stores of a buffer of `n` bytes filled in
increasing order, latest first. -/
def filledIndices (n : Nat) : List Int :=
  ((List.range n).map (fun i : Nat => (i : Int))).reverse

/-! ## The rays handed to `intersectRaySphere` -/

/-- One turn of the light loop, as `lightStep`, together with the rays it hands to
`intersectRaySphere`: the shadow ray `lightRay`, once for every sphere the shadow
loop tests. -/
def lightStepRays (sqrtf : α → α) (spheres : Fin 3 → sphere α) (newStart n : vector α)
    (currentMat : material α) (coef : α) (c : colour α) (currentLight : light α) :
    colour α × List (ray α) :=
  let dist := vectorSub currentLight.pos newStart
  if vectorDot n dist ≤ 0 then (c, [])
  else
    let t := sqrtf (vectorDot dist dist)
    if t ≤ 0 then (c, [])
    else
      let lightRay : ray α := ⟨newStart, vectorScale (1 / t) dist⟩
      if (shadowQuery sqrtf spheres lightRay t).1.inShadow = true then
        (c, (shadowQuery sqrtf spheres lightRay t).2.map (fun _ => lightRay))
      else
        let lambert := vectorDot lightRay.dir n * coef
        (⟨c.red + lambert * currentLight.intensity.red * currentMat.diffuse.red,
          c.green + lambert * currentLight.intensity.green * currentMat.diffuse.green,
          c.blue + lambert * currentLight.intensity.blue * currentMat.diffuse.blue⟩,
         (shadowQuery sqrtf spheres lightRay t).2.map (fun _ => lightRay))

/-- The loop over the three lights, as `lightLoop`, together with the rays handed to
`intersectRaySphere`, in program order. -/
def lightLoopRays (sqrtf : α → α) (sc : scene α) (newStart n : vector α)
    (currentMat : material α) (coef : α) (c : colour α) : colour α × List (ray α) :=
  ([0, 1, 2] : List (Fin 3)).foldl
    (fun acc j =>
      ((lightStepRays sqrtf sc.spheres newStart n currentMat coef acc.1 (sc.lights j)).1,
        acc.2 ++
          (lightStepRays sqrtf sc.spheres newStart n currentMat coef acc.1 (sc.lights j)).2))
    (c, [])

/-- The end of the loop body, as `shadeAndReflect`, together with the rays handed to
`intersectRaySphere`. -/
def shadeAndReflectRays (sqrtf : α → α) (sc : scene α) (st : traceState α)
    (newStart n : vector α) (currentMat : material α) : traceState α × List (ray α) :=
  let cl := lightLoopRays sqrtf sc newStart n currentMat st.coef ⟨st.red, st.green, st.blue⟩
  let coef := st.coef * currentMat.reflection
  let reflect := 2 * vectorDot st.r.dir n
  let tmp := vectorScale reflect n
  (⟨⟨newStart, vectorSub st.r.dir tmp⟩, coef, st.level + 1, cl.1.red, cl.1.green, cl.1.blue⟩,
    cl.2)

/-- The loop body after a hit, as `bounceAt`, together with the rays handed to
`intersectRaySphere`. -/
def bounceAtRays (sqrtf : α → α) (sc : scene α) (st : traceState α) (t : α)
    (currentSphere : Fin 3) : bodyResult α × List (ray α) :=
  let scaled := vectorScale t st.r.dir
  let newStart := vectorAdd st.r.start scaled
  let n := vectorSub newStart (sc.spheres currentSphere).pos
  let temp := vectorDot n n
  if temp = 0 then (.brk st, [])
  else
    let temp := 1 / sqrtf temp
    let n := vectorScale temp n
    match index3 (sc.spheres currentSphere).material with
    | none => (.undef, [])
    | some m =>
      (.cont (shadeAndReflectRays sqrtf sc st newStart n (sc.materials m)).1,
        (shadeAndReflectRays sqrtf sc st newStart n (sc.materials m)).2)

/-- The body of the `do ... while` loop, as `bounceBody`, together with the rays handed
to `intersectRaySphere`, in program order: the global ray `r` by each of the three
`closestIntersection` threads, then the shadow rays of the light loop. -/
def bounceBodyRays (sqrtf : α → α) (sc : scene α) (st : traceState α) :
    bodyResult α × List (ray α) :=
  if (closestHit sqrtf sc.spheres st.r).currentSphere = -1 then (.brk st, [st.r, st.r, st.r])
  else
    match index3 (closestHit sqrtf sc.spheres st.r).currentSphere with
    | none => (.undef, [st.r, st.r, st.r])
    | some cs =>
      ((bounceAtRays sqrtf sc st (closestHit sqrtf sc.spheres st.r).t cs).1,
        [st.r, st.r, st.r]
          ++ (bounceAtRays sqrtf sc st (closestHit sqrtf sc.spheres st.r).t cs).2)

/-! ## Theorems -/

/-- The returned flag and distance of `intersectRaySphere` in terms of the
discriminant and the candidate root. -/
theorem intersectRaySphere_eq (sqrtf : α → α) (r : ray α) (s : sphere α) (t : α) :
    intersectRaySphere sqrtf r s t =
      if 0 ≤ discriminant r s ∧ epsilon < candidate sqrtf r s ∧ candidate sqrtf r s < t
      then (true, candidate sqrtf r s) else (false, t) := by
  unfold intersectRaySphere
  simp only [← discriminant.eq_1]
  by_cases hd : discriminant r s < 0
  · simp [hd, not_le.mpr hd]
  · have hd2 : 0 ≤ discriminant r s := not_lt.mp hd
    have hc : (if (-(2 * vectorDot r.dir (vectorSub r.start s.pos)) + sqrtf (discriminant r s)) / 2
          > (-(2 * vectorDot r.dir (vectorSub r.start s.pos)) - sqrtf (discriminant r s)) / 2
        then (-(2 * vectorDot r.dir (vectorSub r.start s.pos)) - sqrtf (discriminant r s)) / 2
        else (-(2 * vectorDot r.dir (vectorSub r.start s.pos)) + sqrtf (discriminant r s)) / 2)
        = candidate sqrtf r s := by
      unfold candidate
      split_ifs with h
      · exact (min_eq_right (le_of_lt h)).symm
      · exact (min_eq_left (not_lt.mp h)).symm
    simp only [hd, if_false, hc, gt_iff_lt, hd2, true_and]

/-- C2: `intersectRaySphere` returns true exactly when the discriminant is
non-negative and the candidate (the smaller root) is strictly greater than 0.001 and
strictly less than the incoming `*t`; with a negative discriminant it returns false. -/
theorem intersectRaySphere_true_iff (sqrtf : α → α) (r : ray α) (s : sphere α) (t : α) :
    ((intersectRaySphere sqrtf r s t).1 = true ↔
      0 ≤ discriminant r s ∧ epsilon < candidate sqrtf r s ∧ candidate sqrtf r s < t) ∧
    (discriminant r s < 0 → (intersectRaySphere sqrtf r s t).1 = false) := by
  rw [intersectRaySphere_eq]
  constructor
  · split_ifs with h <;> simp [h]
  · intro hd
    rw [if_neg (fun h => absurd h.1 (not_le.mpr hd))]

/-- The thread function in terms of the candidate of its sphere. -/
theorem closestIntersection_eq (sqrtf : α → α) (r : ray α) (k : Nat) (s : sphere α)
    (st : hitState α) :
    closestIntersection sqrtf r k s st =
      if hasCandidate sqrtf r s epsilon st.t then ⟨candidate sqrtf r s, (k : Int)⟩ else st := by
  unfold closestIntersection hasCandidate
  rw [intersectRaySphere_eq]
  split_ifs with h <;> simp_all

/-- One closest-hit thread takes the loop invariant from `k` to `k + 1`. -/
theorem closestInv_step (sqrtf : α → α) (spheres : Fin 3 → sphere α) (r : ray α)
    (k : Fin 3) (st : hitState α) (h : closestInv sqrtf spheres r k.val st) :
    closestInv sqrtf spheres r (k.val + 1)
      (closestIntersection sqrtf r k.val (spheres k) st) := by
  rw [closestIntersection_eq]
  have hlt : ∀ i : Fin 3, i.val < k.val + 1 → i.val < k.val ∨ i = k := by
    intro i hi
    rcases Nat.lt_succ_iff_lt_or_eq.mp hi with h1 | h1
    · exact Or.inl h1
    · exact Or.inr (Fin.ext h1)
  rcases h with ⟨hcs, ht, hno⟩ | ⟨j, hj, hcs, hvj, ht, hmin⟩
  · rw [ht]
    split_ifs with hv
    · right
      refine ⟨k, Nat.lt_succ_self _, rfl, hv, rfl, ?_⟩
      intro i hi hvi
      rcases hlt i hi with h1 | h1
      · exact absurd hvi (hno i h1)
      · subst h1
        exact ⟨le_refl _, fun _ => le_refl _⟩
    · left
      refine ⟨hcs, ht, ?_⟩
      intro i hi
      rcases hlt i hi with h1 | h1
      · exact hno i h1
      · subst h1
        exact hv
  · split_ifs with hv
    · right
      rw [ht] at hv
      have hvk : hasCandidate sqrtf r (spheres k) epsilon 20000 :=
        ⟨hv.1, hv.2.1, lt_trans hv.2.2 hvj.2.2⟩
      refine ⟨k, Nat.lt_succ_self _, rfl, hvk, rfl, ?_⟩
      intro i hi hvi
      rcases hlt i hi with h1 | h1
      · have := (hmin i h1 hvi).1
        refine ⟨le_trans (le_of_lt hv.2.2) this, fun he => ?_⟩
        exact absurd hv.2.2 (not_lt.mpr (he ▸ this))
      · subst h1
        exact ⟨le_refl _, fun _ => le_refl _⟩
    · right
      refine ⟨j, Nat.lt_succ_of_lt hj, hcs, hvj, ht, ?_⟩
      intro i hi hvi
      rcases hlt i hi with h1 | h1
      · exact hmin i h1 hvi
      · subst h1
        rw [ht] at hv
        have hle : candidate sqrtf r (spheres j) ≤ candidate sqrtf r (spheres i) :=
          not_lt.mp (fun hl => hv ⟨hvi.1, hvi.2.1, hl⟩)
        exact ⟨hle, fun _ => le_of_lt hj⟩

/-- The loop invariant holds with all three spheres tested when the query ends. -/
theorem closestHit_inv (sqrtf : α → α) (spheres : Fin 3 → sphere α) (r : ray α) :
    closestInv sqrtf spheres r 3 (closestHit sqrtf spheres r) := by
  have h0 : closestInv sqrtf spheres r (0 : Fin 3).val (⟨20000, -1⟩ : hitState α) :=
    Or.inl ⟨rfl, rfl, fun i hi => absurd hi (Nat.not_lt_zero _)⟩
  have h1 := closestInv_step sqrtf spheres r 0 _ h0
  have h2 := closestInv_step sqrtf spheres r 1 _ h1
  have h3 := closestInv_step sqrtf spheres r 2 _ h2
  exact h3

/-- C1: the closest-hit query in index order ends with `currentSphere = -1` exactly
when no sphere has a candidate distance strictly between 0.001 and 20000; otherwise
`t` is the minimum of those candidate distances and `currentSphere` is the lowest
index among the spheres that attain it. -/
theorem closestHit_spec (sqrtf : α → α) (spheres : Fin 3 → sphere α) (r : ray α) :
    ((closestHit sqrtf spheres r).currentSphere = -1 ↔
      ∀ i : Fin 3, ¬ hasCandidate sqrtf r (spheres i) epsilon 20000) ∧
    ((∃ i : Fin 3, hasCandidate sqrtf r (spheres i) epsilon 20000) →
      ∃ j : Fin 3, (closestHit sqrtf spheres r).currentSphere = (j.val : Int) ∧
        hasCandidate sqrtf r (spheres j) epsilon 20000 ∧
        (closestHit sqrtf spheres r).t = candidate sqrtf r (spheres j) ∧
        (∀ i : Fin 3, hasCandidate sqrtf r (spheres i) epsilon 20000 →
          candidate sqrtf r (spheres j) ≤ candidate sqrtf r (spheres i)) ∧
        (∀ i : Fin 3, hasCandidate sqrtf r (spheres i) epsilon 20000 →
          candidate sqrtf r (spheres i) = candidate sqrtf r (spheres j) → j ≤ i)) := by
  rcases closestHit_inv sqrtf spheres r with ⟨hcs, _, hno⟩ | ⟨j, _, hcs, hvj, ht, hmin⟩
  · refine ⟨⟨fun _ i => hno i i.isLt, fun _ => hcs⟩, ?_⟩
    rintro ⟨i, hi⟩
    exact absurd hi (hno i i.isLt)
  · refine ⟨⟨fun h => ?_, fun h => absurd hvj (h j)⟩, fun _ => ?_⟩
    · rw [hcs] at h
      omega
    · exact ⟨j, hcs, hvj, ht, fun i hi => (hmin i i.isLt hi).1,
        fun i hi he => (hmin i i.isLt hi).2 he⟩

/-- The thread function `shadow` in terms of the candidate of its sphere. -/
theorem shadow_eq (sqrtf : α → α) (lightRay : ray α) (s : sphere α) (st : shadowState α) :
    shadow sqrtf lightRay s st =
      if hasCandidate sqrtf lightRay s epsilon st.t then ⟨true, candidate sqrtf lightRay s⟩
      else st := by
  unfold shadow hasCandidate
  rw [intersectRaySphere_eq]
  split_ifs with h <;> simp_all

/-- C3: the shadow query ends with `inShadow` true exactly when some sphere has a
candidate distance strictly between 0.001 and the original light distance; when it
does, the spheres tested are exactly those up to the first occluding one; and the
result is the one of testing every sphere against the unmodified light distance. -/
theorem shadowQuery_spec (sqrtf : α → α) (spheres : Fin 3 → sphere α) (lightRay : ray α)
    (t : α) :
    ((shadowQuery sqrtf spheres lightRay t).1.inShadow = true ↔
      ∃ k : Fin 3, hasCandidate sqrtf lightRay (spheres k) epsilon t) ∧
    ((shadowQuery sqrtf spheres lightRay t).1.inShadow = false ↔
      ∀ k : Fin 3, ¬ hasCandidate sqrtf lightRay (spheres k) epsilon t) ∧
    ((shadowQuery sqrtf spheres lightRay t).1.inShadow = true →
      ∃ k : Fin 3, hasCandidate sqrtf lightRay (spheres k) epsilon t ∧
        (∀ i : Fin 3, i < k → ¬ hasCandidate sqrtf lightRay (spheres i) epsilon t) ∧
        ∀ i : Fin 3, i ∈ (shadowQuery sqrtf spheres lightRay t).2 ↔ i ≤ k) ∧
    (shadowQuery sqrtf spheres lightRay t).1.inShadow = shadowAll sqrtf spheres lightRay t := by
  have hall : shadowAll sqrtf spheres lightRay t = true ↔
      ∃ k : Fin 3, hasCandidate sqrtf lightRay (spheres k) epsilon t := by
    have hflag : ∀ s : sphere α, (intersectRaySphere sqrtf lightRay s t).1 = true ↔
        hasCandidate sqrtf lightRay s epsilon t := by
      intro s
      rw [intersectRaySphere_eq]
      unfold hasCandidate
      split_ifs with h <;> simp [h]
    simp [shadowAll, hflag, Fin.exists_fin_succ]
  by_cases h0 : hasCandidate sqrtf lightRay (spheres 0) epsilon t
  · have hq : shadowQuery sqrtf spheres lightRay t
        = (⟨true, candidate sqrtf lightRay (spheres 0)⟩, [0]) := by
      simp [shadowQuery, shadowLoop, shadow_eq, h0]
    have ha := hall.mpr ⟨0, h0⟩
    rw [hq, ha]
    refine ⟨⟨fun _ => ⟨0, h0⟩, fun _ => rfl⟩, ⟨fun h => by simp at h, fun h => absurd h0 (h 0)⟩,
      fun _ => ⟨0, h0, fun i hi => absurd hi (Fin.not_lt_zero i), fun i => ?_⟩, rfl⟩
    simp [Fin.le_zero_iff]
  · by_cases h1 : hasCandidate sqrtf lightRay (spheres 1) epsilon t
    · have hq : shadowQuery sqrtf spheres lightRay t
          = (⟨true, candidate sqrtf lightRay (spheres 1)⟩, [0, 1]) := by
        simp [shadowQuery, shadowLoop, shadow_eq, h0, h1]
      have ha := hall.mpr ⟨1, h1⟩
      rw [hq, ha]
      refine ⟨⟨fun _ => ⟨1, h1⟩, fun _ => rfl⟩,
        ⟨fun h => by simp at h, fun h => absurd h1 (h 1)⟩,
        fun _ => ⟨1, h1, fun i hi => ?_, fun i => ?_⟩, rfl⟩
      · have : i = 0 := by omega
        rw [this]; exact h0
      · simp only [List.mem_cons, List.mem_singleton, List.not_mem_nil, or_false]
        omega
    · by_cases h2 : hasCandidate sqrtf lightRay (spheres 2) epsilon t
      · have hq : shadowQuery sqrtf spheres lightRay t
            = (⟨true, candidate sqrtf lightRay (spheres 2)⟩, [0, 1, 2]) := by
          simp [shadowQuery, shadowLoop, shadow_eq, h0, h1, h2]
        have ha := hall.mpr ⟨2, h2⟩
        rw [hq, ha]
        refine ⟨⟨fun _ => ⟨2, h2⟩, fun _ => rfl⟩,
          ⟨fun h => by simp at h, fun h => absurd h2 (h 2)⟩,
          fun _ => ⟨2, h2, fun i hi => ?_, fun i => ?_⟩, rfl⟩
        · have : i = 0 ∨ i = 1 := by omega
          rcases this with h | h <;> rw [h] <;> assumption
        · simp only [List.mem_cons, List.mem_singleton, List.not_mem_nil, or_false]
          omega
      · have hq : shadowQuery sqrtf spheres lightRay t = (⟨false, t⟩, [0, 1, 2]) := by
          simp [shadowQuery, shadowLoop, shadow_eq, h0, h1, h2]
        have hnone : ∀ k : Fin 3, ¬ hasCandidate sqrtf lightRay (spheres k) epsilon t := by
          intro k
          have : k = 0 ∨ k = 1 ∨ k = 2 := by omega
          rcases this with h | h | h <;> rw [h] <;> assumption
        have ha : shadowAll sqrtf spheres lightRay t = false := by
          rw [← Bool.not_eq_true, hall]
          rintro ⟨k, hk⟩
          exact hnone k hk
        rw [hq, ha]
        refine ⟨⟨fun h => by simp at h, fun ⟨k, hk⟩ => absurd hk (hnone k)⟩,
          ⟨fun _ => hnone, fun _ => rfl⟩, fun h => by simp at h, rfl⟩

/-- An index below three, read as an `int`, is in range. -/
theorem index3_val (j : Fin 3) : index3 (j.val : Int) = some j := by
  have : j = 0 ∨ j = 1 ∨ j = 2 := by omega
  rcases this with h | h | h <;> subst h <;> rfl

/-- The closest-hit query leaves `currentSphere` at -1 or at a sphere index. -/
theorem closestHit_currentSphere (sqrtf : α → α) (spheres : Fin 3 → sphere α) (r : ray α) :
    (closestHit sqrtf spheres r).currentSphere = -1 ∨
      ∃ j : Fin 3, (closestHit sqrtf spheres r).currentSphere = (j.val : Int) := by
  rcases closestHit_inv sqrtf spheres r with h | ⟨j, _, hcs, _⟩
  · exact Or.inl h.1
  · exact Or.inr ⟨j, hcs⟩

/-- The loop body when the closest-hit query misses every sphere. -/
theorem bounceBody_miss (sqrtf : α → α) (sc : scene α) (st : traceState α)
    (h : (closestHit sqrtf sc.spheres st.r).currentSphere = -1) :
    bounceBody sqrtf sc st = .brk st := by
  unfold bounceBody
  rw [if_pos h]

/-- The loop body when the closest-hit query ends at sphere `j`. -/
theorem bounceBody_hit (sqrtf : α → α) (sc : scene α) (st : traceState α) (j : Fin 3)
    (h : (closestHit sqrtf sc.spheres st.r).currentSphere = (j.val : Int)) :
    bounceBody sqrtf sc st = bounceAt sqrtf sc st (closestHit sqrtf sc.spheres st.r).t j := by
  unfold bounceBody
  have hne : ¬ (closestHit sqrtf sc.spheres st.r).currentSphere = -1 := by
    rw [h]; omega
  rw [if_neg hne, h, index3_val]

/-- The three ways `bounceAt` can end. -/
theorem bounceAt_cases (sqrtf : α → α) (sc : scene α) (st : traceState α) (t : α)
    (j : Fin 3) :
    bounceAt sqrtf sc st t j = .brk st ∨
    (bounceAt sqrtf sc st t j = .undef ∧ index3 (sc.spheres j).material = none) ∨
    ∃ newStart n m, bounceAt sqrtf sc st t j
      = .cont (shadeAndReflect sqrtf sc st newStart n m) := by
  unfold bounceAt
  dsimp only
  split_ifs
  · exact Or.inl rfl
  · cases hm : index3 (sc.spheres j).material with
    | none => exact Or.inr (Or.inl ⟨rfl, rfl⟩)
    | some m => exact Or.inr (Or.inr ⟨_, _, _, rfl⟩)

/-- The three ways the loop body can end. -/
theorem bounceBody_cases (sqrtf : α → α) (sc : scene α) (st : traceState α) :
    bounceBody sqrtf sc st = .brk st ∨
    (bounceBody sqrtf sc st = .undef ∧ ∃ j : Fin 3, index3 (sc.spheres j).material = none) ∨
    ∃ newStart n m, bounceBody sqrtf sc st
      = .cont (shadeAndReflect sqrtf sc st newStart n m) := by
  rcases closestHit_currentSphere sqrtf sc.spheres st.r with h | ⟨j, h⟩
  · exact Or.inl (bounceBody_miss sqrtf sc st h)
  · rw [bounceBody_hit sqrtf sc st j h]
    rcases bounceAt_cases sqrtf sc st (closestHit sqrtf sc.spheres st.r).t j with
      h1 | ⟨h1, h2⟩ | h1
    · exact Or.inl h1
    · exact Or.inr (Or.inl ⟨h1, j, h2⟩)
    · exact Or.inr (Or.inr h1)

/-- With material indices in range the loop body makes no out-of-range access. -/
theorem bounceBody_ne_undef (sqrtf : α → α) (sc : scene α) (st : traceState α)
    (hwf : ∀ i : Fin 3, index3 (sc.spheres i).material ≠ none) :
    bounceBody sqrtf sc st ≠ .undef := by
  rcases bounceBody_cases sqrtf sc st with h | ⟨_, j, hj⟩ | ⟨a, b, c, h⟩
  · rw [h]; simp
  · exact absurd hj (hwf j)
  · rw [h]; simp

/-- A completed execution of the loop body increases `level` by exactly one. -/
theorem bounceBody_level (sqrtf : α → α) (sc : scene α) (st st1 : traceState α)
    (h : bounceBody sqrtf sc st = .cont st1) : st1.level = st.level + 1 := by
  rcases bounceBody_cases sqrtf sc st with h1 | ⟨h1, _⟩ | ⟨a, b, c, h1⟩
  · rw [h1] at h; exact absurd h (by simp)
  · rw [h1] at h; exact absurd h (by simp)
  · rw [h1] at h
    simp only [bodyResult.cont.injEq] at h
    rw [← h]
    rfl

/-- A `break` leaves the loop in the state the body was entered with. -/
theorem bounceBody_brk (sqrtf : α → α) (sc : scene α) (st st1 : traceState α)
    (h : bounceBody sqrtf sc st = .brk st1) : st1 = st := by
  rcases bounceBody_cases sqrtf sc st with h1 | ⟨h1, _⟩ | ⟨a, b, c, h1⟩
  · rw [h1] at h
    simp only [bodyResult.brk.injEq] at h
    exact h.symm
  · rw [h1] at h; exact absurd h (by simp)
  · rw [h1] at h; exact absurd h (by simp)

/-- More fuel does not change the result of a loop that ended. -/
theorem bounceLoop_mono (sqrtf : α → α) (sc : scene α) :
    ∀ (fuel : Nat) (st st1 : traceState α) (k : Nat),
      bounceLoop sqrtf sc fuel st = .done st1 k →
      bounceLoop sqrtf sc (fuel + 1) st = .done st1 k := by
  intro fuel
  induction fuel with
  | zero =>
    intro st st1 k h
    simp [bounceLoop] at h
  | succ f ih =>
    intro st st1 k h
    rw [bounceLoop] at h
    rw [bounceLoop]
    cases hb : bounceBody sqrtf sc st with
    | undef => rw [hb] at h; exact absurd h (by simp)
    | brk s1 => rw [hb] at h; exact h
    | cont s1 =>
      rw [hb] at h
      dsimp only at h ⊢
      split_ifs at h ⊢ with hc
      · cases hl : bounceLoop sqrtf sc f s1 with
        | outOfFuel => rw [hl] at h; exact absurd h (by simp)
        | undef => rw [hl] at h; exact absurd h (by simp)
        | done s2 k2 =>
          rw [hl] at h
          rw [ih s1 s2 k2 hl]
          exact h
      · exact h

/-- Any fuel above one that sufficed gives the same result. -/
theorem bounceLoop_mono_le (sqrtf : α → α) (sc : scene α) (fuel fuel1 : Nat)
    (st st1 : traceState α) (k : Nat) (hle : fuel ≤ fuel1)
    (h : bounceLoop sqrtf sc fuel st = .done st1 k) :
    bounceLoop sqrtf sc fuel1 st = .done st1 k := by
  induction fuel1 with
  | zero =>
    have : fuel = 0 := Nat.le_zero.mp hle
    rw [this] at h
    exact h
  | succ f ih =>
    rcases Nat.lt_or_ge f fuel with hlt | hge
    · have : fuel = f + 1 := by omega
      rw [this] at h
      exact h
    · exact bounceLoop_mono sqrtf sc f st st1 k (ih hge)

/-- From a state whose `level` is at least `15 - n`, fuel `n` suffices and the body
runs between one and `n` times. -/
theorem bounceLoop_bound (sqrtf : α → α) (sc : scene α)
    (hwf : ∀ i : Fin 3, index3 (sc.spheres i).material ≠ none) :
    ∀ (n : Nat) (st : traceState α), 1 ≤ n → 15 - st.level ≤ (n : Int) →
      ∃ st1 k, bounceLoop sqrtf sc n st = .done st1 k ∧ 1 ≤ k ∧ k ≤ n := by
  intro n
  induction n with
  | zero => intro st h; omega
  | succ f ih =>
    intro st _ hlev
    rw [bounceLoop]
    cases hb : bounceBody sqrtf sc st with
    | undef => exact absurd hb (bounceBody_ne_undef sqrtf sc st hwf)
    | brk s1 => exact ⟨s1, 1, rfl, le_refl _, by omega⟩
    | cont s1 =>
      dsimp only
      have hl := bounceBody_level sqrtf sc st s1 hb
      split_ifs with hc
      · have hf : 1 ≤ f := by omega
        obtain ⟨s2, k, h2, hk1, hk2⟩ := ih s1 hf (by omega)
        rw [h2]
        exact ⟨s2, k + 1, rfl, by omega, by omega⟩
      · exact ⟨s1, 1, rfl, le_refl _, by omega⟩

/-- C5: with material indices in range, the bounce loop of a pixel terminates (every
fuel from 15 on gives the same final state) and its body is executed at least once
and at most 15 times; a completed iteration increases `level` by exactly one, and
after a completed iteration the loop goes on exactly when `coef > 0` and
`level < 15`. -/
theorem bounceLoop_terminates (sqrtf : α → α) (sc : scene α) (r0 : ray α) (x y : Nat)
    (hwf : ∀ i : Fin 3, index3 (sc.spheres i).material ≠ none) :
    (∃ st k, 1 ≤ k ∧ k ≤ 15 ∧
      ∀ fuel, 15 ≤ fuel → bounceLoop sqrtf sc fuel (initialState r0 x y) = .done st k) ∧
    (∀ s s1, bounceBody sqrtf sc s = .cont s1 → s1.level = s.level + 1) ∧
    (∀ fuel s s1, bounceBody sqrtf sc s = .cont s1 → ¬ (s1.coef > 0 ∧ s1.level < 15) →
      bounceLoop sqrtf sc (fuel + 1) s = .done s1 1) ∧
    (∀ fuel s s1 s2 k, bounceBody sqrtf sc s = .cont s1 → (s1.coef > 0 ∧ s1.level < 15) →
      bounceLoop sqrtf sc fuel s1 = .done s2 k →
      bounceLoop sqrtf sc (fuel + 1) s = .done s2 (k + 1)) := by
  refine ⟨?_, bounceBody_level sqrtf sc, ?_, ?_⟩
  · obtain ⟨st, k, h, hk1, hk2⟩ :=
      bounceLoop_bound sqrtf sc hwf 15 (initialState r0 x y) (by decide)
        (by simp [initialState])
    exact ⟨st, k, hk1, hk2, fun fuel hf => bounceLoop_mono_le sqrtf sc 15 fuel _ st k hf h⟩
  · intro fuel s s1 hb hc
    rw [bounceLoop, hb]
    dsimp only
    rw [if_neg hc]
  · intro fuel s s1 s2 k hb hc hl
    rw [bounceLoop, hb]
    dsimp only
    rw [if_pos hc, hl]

/-- C5 at the scene of `main` with `scale = 1`, pixel `(0, 0)`. -/
theorem bounceLoop_terminates_witness :
    (∀ i : Fin 3, index3 ((mainScene 1 : scene ℚ).spheres i).material ≠ none) ∧
    (∃ st k, 1 ≤ k ∧ k ≤ 15 ∧
      ∀ fuel, 15 ≤ fuel →
        bounceLoop Rat.sqrt (mainScene 1 : scene ℚ) fuel
          (initialState ⟨⟨0, 0, 0⟩, ⟨0, 0, 0⟩⟩ 0 0) = .done st k) :=
  ⟨by intro i; fin_cases i <;> simp [mainScene, mainSpheres, index3],
   (bounceLoop_terminates Rat.sqrt (mainScene 1 : scene ℚ) ⟨⟨0, 0, 0⟩, ⟨0, 0, 0⟩⟩ 0 0
      (by intro i; fin_cases i <;> simp [mainScene, mainSpheres, index3])).1⟩

/-- When no sphere has a candidate the closest-hit query ends with -1. -/
theorem closestHit_miss (sqrtf : α → α) (spheres : Fin 3 → sphere α) (r : ray α)
    (hmiss : ∀ i : Fin 3, ¬ hasCandidate sqrtf r (spheres i) epsilon 20000) :
    (closestHit sqrtf spheres r).currentSphere = -1 := by
  rcases closestHit_inv sqrtf spheres r with h | ⟨j, _, _, hvj, _⟩
  · exact h.1
  · exact absurd hvj (hmiss j)

/-- The primary ray of pixel `(0, 0)` has a negative discriminant with each sphere of
the scene of `main` at `scale = 1`. -/
theorem mainScene_origin_miss (sqrtf : α → α) (r0 : ray α) (i : Fin 3) :
    ¬ hasCandidate sqrtf (initialState r0 0 0).r ((mainScene 1 : scene α).spheres i)
      epsilon 20000 := by
  intro h
  have hd := h.1
  fin_cases i <;>
    norm_num [discriminant, vectorDot, vectorSub, mainScene, mainSpheres, initialState] at hd

/-- For a ray of unit direction and an exact square root of the discriminant, the
point at the candidate distance lies on the sphere. -/
theorem candidate_on_sphere (sqrtf : α → α) (r : ray α) (s : sphere α)
    (hA : vectorDot r.dir r.dir = 1)
    (hs : sqrtf (discriminant r s) * sqrtf (discriminant r s) = discriminant r s) :
    vectorDot (vectorSub (vectorAdd r.start (vectorScale (candidate sqrtf r s) r.dir)) s.pos)
        (vectorSub (vectorAdd r.start (vectorScale (candidate sqrtf r s) r.dir)) s.pos)
      = s.radius * s.radius := by
  obtain ⟨⟨sx, sy, sz⟩, ⟨dx, dy, dz⟩⟩ := r
  obtain ⟨⟨cx, cy, cz⟩, rad, m⟩ := s
  unfold candidate
  generalize hq : sqrtf (discriminant _ _) = q at hs ⊢
  simp only [discriminant, vectorDot, vectorSub] at hs hA
  rcases min_choice
      ((-(2 * vectorDot (⟨dx, dy, dz⟩ : vector α)
        (vectorSub (⟨sx, sy, sz⟩ : vector α) ⟨cx, cy, cz⟩)) + q) / 2)
      ((-(2 * vectorDot (⟨dx, dy, dz⟩ : vector α)
        (vectorSub (⟨sx, sy, sz⟩ : vector α) ⟨cx, cy, cz⟩)) - q) / 2) with h | h
  · rw [h]
    simp only [vectorDot, vectorSub, vectorAdd, vectorScale]
    linear_combination (1 / 4) * hs
      + (((-(2 * (dx * (sx - cx) + dy * (sy - cy) + dz * (sz - cz))) + q) / 2) ^ 2
        - ((sx - cx) * (sx - cx) + (sy - cy) * (sy - cy) + (sz - cz) * (sz - cz)
          - rad * rad)) * hA
  · rw [h]
    simp only [vectorDot, vectorSub, vectorAdd, vectorScale]
    linear_combination (1 / 4) * hs
      + (((-(2 * (dx * (sx - cx) + dy * (sy - cy) + dz * (sz - cz))) - q) / 2) ^ 2
        - ((sx - cx) * (sx - cx) + (sy - cy) * (sy - cy) + (sz - cz) * (sz - cz)
          - rad * rad)) * hA

/-- A closest-hit query that ends at sphere `j` found a candidate of that sphere, and
`t` is that candidate. -/
theorem closestHit_hit (sqrtf : α → α) (spheres : Fin 3 → sphere α) (r : ray α) (j : Fin 3)
    (h : (closestHit sqrtf spheres r).currentSphere = (j.val : Int)) :
    hasCandidate sqrtf r (spheres j) epsilon 20000 ∧
      (closestHit sqrtf spheres r).t = candidate sqrtf r (spheres j) := by
  rcases closestHit_inv sqrtf spheres r with ⟨hcs, _, _⟩ | ⟨i, _, hcs, hvi, ht, _⟩
  · rw [hcs] at h
    omega
  · have hij : i = j := by
      rw [hcs] at h
      exact Fin.ext (by exact_mod_cast h)
    rw [← hij]
    exact ⟨hvi, ht⟩

/-- The loop body after a hit with a non-degenerate normal and a material in range. -/
theorem bounceAt_cont (sqrtf : α → α) (sc : scene α) (st : traceState α) (t : α)
    (j m : Fin 3)
    (htemp : vectorDot (vectorSub (hitPoint st.r t) (sc.spheres j).pos)
      (vectorSub (hitPoint st.r t) (sc.spheres j).pos) ≠ 0)
    (hmat : index3 (sc.spheres j).material = some m) :
    bounceAt sqrtf sc st t j
      = .cont (shadeAndReflect sqrtf sc st (hitPoint st.r t)
          (hitNormal sqrtf st.r t (sc.spheres j)) (sc.materials m)) := by
  unfold bounceAt
  dsimp only
  unfold hitPoint at htemp
  rw [if_neg htemp, hmat]
  rfl

/-- The normalised normal has unit length when the square root of its squared length
is exact and not zero. -/
theorem normalize_unit (sqrtf : α → α) (v : vector α)
    (hs : sqrtf (vectorDot v v) * sqrtf (vectorDot v v) = vectorDot v v)
    (hne : vectorDot v v ≠ 0) :
    vectorDot (vectorScale (1 / sqrtf (vectorDot v v)) v)
      (vectorScale (1 / sqrtf (vectorDot v v)) v) = 1 := by
  generalize hq : sqrtf (vectorDot v v) = q at hs ⊢
  have hq0 : q ≠ 0 := by
    intro h0
    rw [h0, mul_zero] at hs
    exact hne hs.symm
  obtain ⟨a, b, c⟩ := v
  simp only [vectorDot, vectorScale] at hs hne ⊢
  field_simp
  linear_combination -hs

/-- Mirror reflection at a unit normal keeps a unit direction unit. -/
theorem reflect_unit (d n : vector α) (hd : vectorDot d d = 1) (hn : vectorDot n n = 1) :
    vectorDot (vectorSub d (vectorScale (2 * vectorDot d n) n))
      (vectorSub d (vectorScale (2 * vectorDot d n) n)) = 1 := by
  obtain ⟨a, b, c⟩ := d
  obtain ⟨u, v, w⟩ := n
  simp only [vectorDot, vectorSub, vectorScale] at hd hn ⊢
  linear_combination hd + 4 * (a * u + b * v + c * w) ^ 2 * hn

/-- One bounce off a sphere of non-zero radius, from a state whose ray has unit
direction, with an exact square root: the body completes, and the new ray has unit
direction again. -/
theorem bounceBody_hit_unit (sqrtf : α → α) (sc : scene α) (st : traceState α) (j m : Fin 3)
    (hsqrt : exactSqrt sqrtf)
    (hunit : vectorDot st.r.dir st.r.dir = 1)
    (hhit : (closestHit sqrtf sc.spheres st.r).currentSphere = (j.val : Int))
    (hrad : (sc.spheres j).radius ≠ 0)
    (hmat : index3 (sc.spheres j).material = some m) :
    bounceBody sqrtf sc st
        = .cont (shadeAndReflect sqrtf sc st
            (hitPoint st.r (closestHit sqrtf sc.spheres st.r).t)
            (hitNormal sqrtf st.r (closestHit sqrtf sc.spheres st.r).t (sc.spheres j))
            (sc.materials m)) ∧
    vectorDot (shadeAndReflect sqrtf sc st
            (hitPoint st.r (closestHit sqrtf sc.spheres st.r).t)
            (hitNormal sqrtf st.r (closestHit sqrtf sc.spheres st.r).t (sc.spheres j))
            (sc.materials m)).r.dir
        (shadeAndReflect sqrtf sc st
            (hitPoint st.r (closestHit sqrtf sc.spheres st.r).t)
            (hitNormal sqrtf st.r (closestHit sqrtf sc.spheres st.r).t (sc.spheres j))
            (sc.materials m)).r.dir = 1 := by
  obtain ⟨hv, ht⟩ := closestHit_hit sqrtf sc.spheres st.r j hhit
  have hon := candidate_on_sphere sqrtf st.r (sc.spheres j) hunit (hsqrt _ hv.1).2
  rw [← ht] at hon
  have htemp : vectorDot
      (vectorSub (hitPoint st.r (closestHit sqrtf sc.spheres st.r).t) (sc.spheres j).pos)
      (vectorSub (hitPoint st.r (closestHit sqrtf sc.spheres st.r).t) (sc.spheres j).pos)
      ≠ 0 := by
    unfold hitPoint
    rw [hon]
    exact mul_ne_zero hrad hrad
  have htemp0 : 0 ≤ vectorDot
      (vectorSub (hitPoint st.r (closestHit sqrtf sc.spheres st.r).t) (sc.spheres j).pos)
      (vectorSub (hitPoint st.r (closestHit sqrtf sc.spheres st.r).t) (sc.spheres j).pos) := by
    unfold hitPoint
    rw [hon]
    exact mul_self_nonneg _
  refine ⟨?_, ?_⟩
  · rw [bounceBody_hit sqrtf sc st j hhit]
    exact bounceAt_cont sqrtf sc st _ j m htemp hmat
  · have hn := normalize_unit sqrtf _ (hsqrt _ htemp0).2 htemp
    exact reflect_unit st.r.dir _ hunit hn

/-- C6: when the primary ray of a pixel hits a sphere (of non-zero radius, with an
exact square root) whose material has reflection 0, the loop body runs exactly once:
it completes, `coef` is 0 afterwards so the loop condition fails, and the colour of
the pixel is the light loop at that first hit started from black with `coef = 1`. -/
theorem reflection_zero_one_bounce (sqrtf : α → α) (sc : scene α) (r0 : ray α) (x y : Nat)
    (j m : Fin 3)
    (hsqrt : exactSqrt sqrtf)
    (hhit : (closestHit sqrtf sc.spheres (initialState r0 x y).r).currentSphere = (j.val : Int))
    (hrad : (sc.spheres j).radius ≠ 0)
    (hmat : index3 (sc.spheres j).material = some m)
    (hrefl : (sc.materials m).reflection = 0) :
    ∃ st : traceState α,
      bounceBody sqrtf sc (initialState r0 x y) = .cont st ∧
      (∀ fuel, bounceLoop sqrtf sc (fuel + 1) (initialState r0 x y) = .done st 1) ∧
      st.coef = 0 ∧ ¬ (st.coef > 0 ∧ st.level < 15) ∧
      (⟨st.red, st.green, st.blue⟩ : colour α)
        = lightLoop sqrtf sc
            (hitPoint (initialState r0 x y).r
              (closestHit sqrtf sc.spheres (initialState r0 x y).r).t)
            (hitNormal sqrtf (initialState r0 x y).r
              (closestHit sqrtf sc.spheres (initialState r0 x y).r).t (sc.spheres j))
            (sc.materials m) 1 ⟨0, 0, 0⟩ := by
  have hunit : vectorDot (initialState r0 x y).r.dir (initialState r0 x y).r.dir = 1 := by
    simp [initialState, vectorDot]
  obtain ⟨hb, _⟩ := bounceBody_hit_unit sqrtf sc (initialState r0 x y) j m hsqrt hunit hhit
    hrad hmat
  have hcoef : (shadeAndReflect sqrtf sc (initialState r0 x y)
      (hitPoint (initialState r0 x y).r
        (closestHit sqrtf sc.spheres (initialState r0 x y).r).t)
      (hitNormal sqrtf (initialState r0 x y).r
        (closestHit sqrtf sc.spheres (initialState r0 x y).r).t (sc.spheres j))
      (sc.materials m)).coef = 0 := by
    simp [shadeAndReflect, hrefl]
  refine ⟨_, hb, ?_, hcoef, ?_, rfl⟩
  · intro fuel
    rw [bounceLoop, hb]
    dsimp only
    rw [if_neg]
    rw [hcoef]
    exact fun h => lt_irrefl _ h.1
  · rw [hcoef]
    exact fun h => lt_irrefl _ h.1

/-- Along a chain of hits on mirrors (reflection 1) of non-zero radius, with an exact
square root, the state after `n` bounces has `level = n`, `coef = 1` and a ray of
unit direction, and from it the loop body completes into the next state. -/
theorem mirror_chain (sqrtf : α → α) (sc : scene α) (r0 : ray α) (x y : Nat)
    (hsqrt : exactSqrt sqrtf)
    (hrad : ∀ i : Fin 3, (sc.spheres i).radius ≠ 0)
    (hchain : ∀ n : Nat, n < 15 → ∃ j m : Fin 3,
      (closestHit sqrtf sc.spheres
        (stateAfter sqrtf sc (initialState r0 x y) n).r).currentSphere = (j.val : Int) ∧
      index3 (sc.spheres j).material = some m ∧ (sc.materials m).reflection = 1) :
    ∀ n : Nat, n ≤ 15 →
      (stateAfter sqrtf sc (initialState r0 x y) n).level = (n : Int) ∧
      (stateAfter sqrtf sc (initialState r0 x y) n).coef = 1 ∧
      vectorDot (stateAfter sqrtf sc (initialState r0 x y) n).r.dir
        (stateAfter sqrtf sc (initialState r0 x y) n).r.dir = 1 ∧
      (n < 15 → bounceBody sqrtf sc (stateAfter sqrtf sc (initialState r0 x y) n)
        = .cont (stateAfter sqrtf sc (initialState r0 x y) (n + 1))) := by
  have hstep : ∀ n : Nat, n < 15 →
      vectorDot (stateAfter sqrtf sc (initialState r0 x y) n).r.dir
        (stateAfter sqrtf sc (initialState r0 x y) n).r.dir = 1 →
      bounceBody sqrtf sc (stateAfter sqrtf sc (initialState r0 x y) n)
        = .cont (stateAfter sqrtf sc (initialState r0 x y) (n + 1)) ∧
      (stateAfter sqrtf sc (initialState r0 x y) (n + 1)).level
        = (stateAfter sqrtf sc (initialState r0 x y) n).level + 1 ∧
      (stateAfter sqrtf sc (initialState r0 x y) (n + 1)).coef
        = (stateAfter sqrtf sc (initialState r0 x y) n).coef ∧
      vectorDot (stateAfter sqrtf sc (initialState r0 x y) (n + 1)).r.dir
        (stateAfter sqrtf sc (initialState r0 x y) (n + 1)).r.dir = 1 := by
    intro n hn hunit
    obtain ⟨j, m, hhit, hmat, hrefl⟩ := hchain n hn
    obtain ⟨hb, hu⟩ := bounceBody_hit_unit sqrtf sc _ j m hsqrt hunit hhit (hrad j) hmat
    have hnext : stateAfter sqrtf sc (initialState r0 x y) (n + 1)
        = shadeAndReflect sqrtf sc (stateAfter sqrtf sc (initialState r0 x y) n)
            (hitPoint (stateAfter sqrtf sc (initialState r0 x y) n).r
              (closestHit sqrtf sc.spheres (stateAfter sqrtf sc (initialState r0 x y) n).r).t)
            (hitNormal sqrtf (stateAfter sqrtf sc (initialState r0 x y) n).r
              (closestHit sqrtf sc.spheres (stateAfter sqrtf sc (initialState r0 x y) n).r).t
              (sc.spheres j))
            (sc.materials m) := by
      conv_lhs => rw [stateAfter, bodyNext, hb]
    rw [hnext]
    refine ⟨hb, rfl, ?_, hu⟩
    simp [shadeAndReflect, hrefl]
  intro n
  induction n with
  | zero =>
    intro _
    have hunit : vectorDot (initialState r0 x y).r.dir (initialState r0 x y).r.dir = 1 := by
      simp [initialState, vectorDot]
    exact ⟨rfl, rfl, hunit, fun h => (hstep 0 h hunit).1⟩
  | succ k ih =>
    intro hk
    obtain ⟨hl, hc, hu, _⟩ := ih (by omega)
    obtain ⟨_, hl1, hc1, hu1⟩ := hstep k (by omega) hu
    refine ⟨?_, ?_, hu1, fun h => (hstep (k + 1) h hu1).1⟩
    · rw [hl1, hl]
      push_cast
      rfl
    · rw [hc1, hc]

/-- C7: when each of the first 15 closest-hit queries of a pixel finds a sphere whose
material has reflection 1 (spheres of non-zero radius, exact square root), the loop
body runs exactly 15 times: the loop ends with `level = 15` and `coef = 1 > 0`, so it
is the depth bound and not the coefficient that stops it. -/
theorem mirror_fifteen_bounces (sqrtf : α → α) (sc : scene α) (r0 : ray α) (x y : Nat)
    (hsqrt : exactSqrt sqrtf)
    (hrad : ∀ i : Fin 3, (sc.spheres i).radius ≠ 0)
    (hchain : ∀ n : Nat, n < 15 → ∃ j m : Fin 3,
      (closestHit sqrtf sc.spheres
        (stateAfter sqrtf sc (initialState r0 x y) n).r).currentSphere = (j.val : Int) ∧
      index3 (sc.spheres j).material = some m ∧ (sc.materials m).reflection = 1) :
    (∀ fuel, 15 ≤ fuel → bounceLoop sqrtf sc fuel (initialState r0 x y)
      = .done (stateAfter sqrtf sc (initialState r0 x y) 15) 15) ∧
    (stateAfter sqrtf sc (initialState r0 x y) 15).level = 15 ∧
    (stateAfter sqrtf sc (initialState r0 x y) 15).coef = 1 ∧
    0 < (stateAfter sqrtf sc (initialState r0 x y) 15).coef ∧
    ¬ ((stateAfter sqrtf sc (initialState r0 x y) 15).level < 15) := by
  have hinv := mirror_chain sqrtf sc r0 x y hsqrt hrad hchain
  have hloop : ∀ k n : Nat, n + (k + 1) = 15 →
      bounceLoop sqrtf sc (k + 1) (stateAfter sqrtf sc (initialState r0 x y) n)
        = .done (stateAfter sqrtf sc (initialState r0 x y) 15) (k + 1) := by
    intro k
    induction k with
    | zero =>
      intro n hn
      have hn14 : n = 14 := by omega
      subst hn14
      obtain ⟨_, _, _, hb⟩ := hinv 14 (by omega)
      obtain ⟨hl, _, _, _⟩ := hinv 15 (le_refl _)
      rw [bounceLoop, hb (by omega)]
      dsimp only
      rw [if_neg]
      intro h
      rw [hl] at h
      exact absurd h.2 (by norm_num)
    | succ k ih =>
      intro n hn
      obtain ⟨_, _, _, hb⟩ := hinv n (by omega)
      obtain ⟨hl, hc, _, _⟩ := hinv (n + 1) (by omega)
      rw [bounceLoop, hb (by omega)]
      dsimp only
      have hcond : (stateAfter sqrtf sc (initialState r0 x y) (n + 1)).coef > 0 ∧
          (stateAfter sqrtf sc (initialState r0 x y) (n + 1)).level < 15 := by
        rw [hl, hc]
        refine ⟨by norm_num, ?_⟩
        omega
      rw [if_pos hcond, ih (n + 1) (by omega)]
  obtain ⟨hl, hc, _, _⟩ := hinv 15 (le_refl _)
  refine ⟨fun fuel hf => ?_, by simpa using hl, hc, by rw [hc]; norm_num, ?_⟩
  · exact bounceLoop_mono_le sqrtf sc 15 fuel _ _ 15 hf (hloop 14 0 (by norm_num))
  · rw [hl]
    norm_num

/-- The closest-hit query ends at the only sphere that has a candidate. -/
theorem closestHit_only (sqrtf : α → α) (spheres : Fin 3 → sphere α) (r : ray α) (j : Fin 3)
    (hj : hasCandidate sqrtf r (spheres j) epsilon 20000)
    (hothers : ∀ i : Fin 3, i ≠ j → ¬ hasCandidate sqrtf r (spheres i) epsilon 20000) :
    (closestHit sqrtf spheres r).currentSphere = (j.val : Int) := by
  rcases closestHit_inv sqrtf spheres r with ⟨_, _, hno⟩ | ⟨i, _, hcs, hvi, _, _⟩
  · exact absurd hj (hno j j.isLt)
  · by_cases hij : i = j
    · rw [hcs, hij]
    · exact absurd hvi (hothers i hij)

/-- The candidate from the values of `B`, of the discriminant and of its square root. -/
theorem candidate_eval (sqrtf : α → α) (r : ray α) (s : sphere α) (b d q : α)
    (hB : 2 * vectorDot r.dir (vectorSub r.start s.pos) = b)
    (hD : discriminant r s = d) (hq : sqrtf d = q) (hq0 : 0 ≤ q) :
    candidate sqrtf r s = (-b - q) / 2 := by
  unfold candidate
  rw [hB, hD, hq]
  apply min_eq_right
  linarith

/-- The real square root is exact. -/
theorem exactSqrt_real : exactSqrt Real.sqrt :=
  fun x hx => ⟨Real.sqrt_nonneg x, Real.mul_self_sqrt hx⟩

/-- The real square root of 40000. -/
theorem sqrt_40000 : Real.sqrt 40000 = 200 := by
  rw [show (40000 : ℝ) = 200 * 200 by norm_num]
  exact Real.sqrt_mul_self (by norm_num)

/-- The real square root of 10000. -/
theorem sqrt_10000 : Real.sqrt 10000 = 100 := by
  rw [show (10000 : ℝ) = 100 * 100 by norm_num]
  exact Real.sqrt_mul_self (by norm_num)

/-- The ray the loop body leaves after a hit as in `bounceBody_hit_unit`: it starts at
the hit point and has the mirrored direction. -/
theorem bodyNext_ray (sqrtf : α → α) (sc : scene α) (st : traceState α) (j m : Fin 3)
    (hsqrt : exactSqrt sqrtf)
    (hunit : vectorDot st.r.dir st.r.dir = 1)
    (hhit : (closestHit sqrtf sc.spheres st.r).currentSphere = (j.val : Int))
    (hrad : (sc.spheres j).radius ≠ 0)
    (hmat : index3 (sc.spheres j).material = some m) :
    (bodyNext sqrtf sc st).r
      = ⟨hitPoint st.r (candidate sqrtf st.r (sc.spheres j)),
         vectorSub st.r.dir
          (vectorScale
            (2 * vectorDot st.r.dir
              (hitNormal sqrtf st.r (candidate sqrtf st.r (sc.spheres j)) (sc.spheres j)))
            (hitNormal sqrtf st.r (candidate sqrtf st.r (sc.spheres j)) (sc.spheres j)))⟩ := by
  obtain ⟨hb, _⟩ := bounceBody_hit_unit sqrtf sc st j m hsqrt hunit hhit hrad hmat
  obtain ⟨_, ht⟩ := closestHit_hit sqrtf sc.spheres st.r j hhit
  rw [bodyNext, hb, ht]
  rfl

/-- In the axis scene the ray from `(0, 0, -2000)` in direction `(0, 0, 1)`, the
primary ray of pixel `(0, 0)`, hits sphere 0 only. -/
theorem axisScene_first (refl : ℝ) (r : ray ℝ) (hr : r = ⟨⟨0, 0, -2000⟩, ⟨0, 0, 1⟩⟩) :
    (closestHit Real.sqrt (axisScene refl).spheres r).currentSphere = ((0 : Fin 3).val : Int) ∧
    candidate Real.sqrt r ((axisScene refl).spheres 0) = 1900 := by
  subst hr
  have hc := candidate_eval Real.sqrt (⟨⟨0, 0, -2000⟩, ⟨0, 0, 1⟩⟩ : ray ℝ)
    ((axisScene refl).spheres 0) (-4000) 40000 200
    (by norm_num [axisScene, vectorDot, vectorSub])
    (by norm_num [axisScene, vectorDot, vectorSub, discriminant])
    sqrt_40000 (by norm_num)
  refine ⟨?_, by rw [hc]; norm_num⟩
  apply closestHit_only
  · refine ⟨?_, ?_, ?_⟩
    · norm_num [axisScene, vectorDot, vectorSub, discriminant]
    · rw [hc]; norm_num [epsilon]
    · rw [hc]; norm_num
  · intro i hi h
    fin_cases i
    · exact hi rfl
    · have hc1 := candidate_eval Real.sqrt (⟨⟨0, 0, -2000⟩, ⟨0, 0, 1⟩⟩ : ray ℝ)
        ((axisScene refl).spheres 1) 2000 40000 200
        (by norm_num [axisScene, vectorDot, vectorSub])
        (by norm_num [axisScene, vectorDot, vectorSub, discriminant])
        sqrt_40000 (by norm_num)
      have h2 := h.2.1
      simp only [Fin.mk_one, Fin.isValue] at h2
      rw [hc1] at h2
      norm_num [epsilon] at h2
    · have h1 := h.1
      norm_num [axisScene, vectorDot, vectorSub, discriminant] at h1

/-- In the axis scene the ray from `(0, 0, -100)` in direction `(0, 0, -1)` hits
sphere 1 only. -/
theorem axisScene_down (refl : ℝ) (r : ray ℝ) (hr : r = ⟨⟨0, 0, -100⟩, ⟨0, 0, -1⟩⟩) :
    (closestHit Real.sqrt (axisScene refl).spheres r).currentSphere = ((1 : Fin 3).val : Int) ∧
    candidate Real.sqrt r ((axisScene refl).spheres 1) = 2800 := by
  subst hr
  have hc := candidate_eval Real.sqrt (⟨⟨0, 0, -100⟩, ⟨0, 0, -1⟩⟩ : ray ℝ)
    ((axisScene refl).spheres 1) (-5800) 40000 200
    (by norm_num [axisScene, vectorDot, vectorSub])
    (by norm_num [axisScene, vectorDot, vectorSub, discriminant])
    sqrt_40000 (by norm_num)
  refine ⟨?_, by rw [hc]; norm_num⟩
  apply closestHit_only
  · refine ⟨?_, ?_, ?_⟩
    · norm_num [axisScene, vectorDot, vectorSub, discriminant]
    · rw [hc]; norm_num [epsilon]
    · rw [hc]; norm_num
  · intro i hi h
    fin_cases i
    · have hc0 := candidate_eval Real.sqrt (⟨⟨0, 0, -100⟩, ⟨0, 0, -1⟩⟩ : ray ℝ)
        ((axisScene refl).spheres 0) 200 40000 200
        (by norm_num [axisScene, vectorDot, vectorSub])
        (by norm_num [axisScene, vectorDot, vectorSub, discriminant])
        sqrt_40000 (by norm_num)
      have h2 := h.2.1
      simp only [Fin.zero_eta, Fin.isValue] at h2
      rw [hc0] at h2
      norm_num [epsilon] at h2
    · exact hi rfl
    · have h1 := h.1
      norm_num [axisScene, vectorDot, vectorSub, discriminant] at h1

/-- In the axis scene the ray from `(0, 0, -2900)` in direction `(0, 0, 1)` hits
sphere 0 only. -/
theorem axisScene_up (refl : ℝ) (r : ray ℝ) (hr : r = ⟨⟨0, 0, -2900⟩, ⟨0, 0, 1⟩⟩) :
    (closestHit Real.sqrt (axisScene refl).spheres r).currentSphere = ((0 : Fin 3).val : Int) ∧
    candidate Real.sqrt r ((axisScene refl).spheres 0) = 2800 := by
  subst hr
  have hc := candidate_eval Real.sqrt (⟨⟨0, 0, -2900⟩, ⟨0, 0, 1⟩⟩ : ray ℝ)
    ((axisScene refl).spheres 0) (-5800) 40000 200
    (by norm_num [axisScene, vectorDot, vectorSub])
    (by norm_num [axisScene, vectorDot, vectorSub, discriminant])
    sqrt_40000 (by norm_num)
  refine ⟨?_, by rw [hc]; norm_num⟩
  apply closestHit_only
  · refine ⟨?_, ?_, ?_⟩
    · norm_num [axisScene, vectorDot, vectorSub, discriminant]
    · rw [hc]; norm_num [epsilon]
    · rw [hc]; norm_num
  · intro i hi h
    fin_cases i
    · exact hi rfl
    · have hc1 := candidate_eval Real.sqrt (⟨⟨0, 0, -2900⟩, ⟨0, 0, 1⟩⟩ : ray ℝ)
        ((axisScene refl).spheres 1) 200 40000 200
        (by norm_num [axisScene, vectorDot, vectorSub])
        (by norm_num [axisScene, vectorDot, vectorSub, discriminant])
        sqrt_40000 (by norm_num)
      have h2 := h.2.1
      simp only [Fin.mk_one, Fin.isValue] at h2
      rw [hc1] at h2
      norm_num [epsilon] at h2
    · have h1 := h.1
      norm_num [axisScene, vectorDot, vectorSub, discriminant] at h1

/-- In the axis scene the primary ray of pixel `(0, 0)` hits sphere 0 only. -/
theorem axisScene_primary (refl : ℝ) (r0 : ray ℝ) :
    (closestHit Real.sqrt (axisScene refl).spheres (initialState r0 0 0).r).currentSphere
      = ((0 : Fin 3).val : Int) :=
  (axisScene_first refl _ (by simp [initialState])).1

/-- C6 at pixel `(0, 0)` of the axis scene with reflection 0, over the reals. -/
theorem reflection_zero_one_bounce_witness :
    exactSqrt Real.sqrt ∧
    (closestHit Real.sqrt (axisScene (0 : ℝ)).spheres
      (initialState ⟨⟨0, 0, 0⟩, ⟨0, 0, 0⟩⟩ 0 0).r).currentSphere = ((0 : Fin 3).val : Int) ∧
    ((axisScene (0 : ℝ)).spheres 0).radius ≠ 0 ∧
    index3 ((axisScene (0 : ℝ)).spheres 0).material = some 0 ∧
    ((axisScene (0 : ℝ)).materials 0).reflection = 0 ∧
    ∃ st : traceState ℝ,
      (∀ fuel, bounceLoop Real.sqrt (axisScene 0) (fuel + 1)
        (initialState ⟨⟨0, 0, 0⟩, ⟨0, 0, 0⟩⟩ 0 0) = .done st 1) ∧ st.coef = 0 := by
  have hrad : ((axisScene (0 : ℝ)).spheres 0).radius ≠ 0 := by norm_num [axisScene]
  have hmat : index3 ((axisScene (0 : ℝ)).spheres 0).material = some 0 := by
    simp [axisScene, index3]
  have hrefl : ((axisScene (0 : ℝ)).materials 0).reflection = 0 := by simp [axisScene]
  obtain ⟨st, _, hl, hc, _⟩ := reflection_zero_one_bounce Real.sqrt (axisScene (0 : ℝ))
    ⟨⟨0, 0, 0⟩, ⟨0, 0, 0⟩⟩ 0 0 0 0 exactSqrt_real (axisScene_primary 0 _) hrad hmat hrefl
  exact ⟨exactSqrt_real, axisScene_primary 0 _, hrad, hmat, hrefl, st, hl, hc⟩

/-- The spheres of the axis scene have a non-zero radius and a material in range. -/
theorem axisScene_wf (refl : ℝ) (i : Fin 3) :
    ((axisScene refl).spheres i).radius ≠ 0 ∧
      index3 ((axisScene refl).spheres i).material = some 0 := by
  fin_cases i <;> simp [axisScene, index3]

/-- In the axis scene the body turns the primary ray of pixel `(0, 0)` into the ray
from `(0, 0, -100)` in direction `(0, 0, -1)`. -/
theorem axisScene_next_first (refl : ℝ) (st : traceState ℝ)
    (h : st.r = ⟨⟨0, 0, -2000⟩, ⟨0, 0, 1⟩⟩) :
    (bodyNext Real.sqrt (axisScene refl) st).r = ⟨⟨0, 0, -100⟩, ⟨0, 0, -1⟩⟩ := by
  rw [bodyNext_ray Real.sqrt (axisScene refl) st 0 0 exactSqrt_real
    (by rw [h]; norm_num [vectorDot]) (axisScene_first refl st.r h).1
    (axisScene_wf refl 0).1 (axisScene_wf refl 0).2, (axisScene_first refl st.r h).2, h]
  norm_num [hitPoint, hitNormal, vectorAdd, vectorScale, vectorSub, vectorDot, axisScene,
    sqrt_10000]

/-- In the axis scene the body turns the ray going down from sphere 0 into the ray
going up from sphere 1. -/
theorem axisScene_next_down (refl : ℝ) (st : traceState ℝ)
    (h : st.r = ⟨⟨0, 0, -100⟩, ⟨0, 0, -1⟩⟩) :
    (bodyNext Real.sqrt (axisScene refl) st).r = ⟨⟨0, 0, -2900⟩, ⟨0, 0, 1⟩⟩ := by
  rw [bodyNext_ray Real.sqrt (axisScene refl) st 1 0 exactSqrt_real
    (by rw [h]; norm_num [vectorDot]) (axisScene_down refl st.r h).1
    (axisScene_wf refl 1).1 (axisScene_wf refl 1).2, (axisScene_down refl st.r h).2, h]
  norm_num [hitPoint, hitNormal, vectorAdd, vectorScale, vectorSub, vectorDot, axisScene,
    sqrt_10000]

/-- In the axis scene the body turns the ray going up from sphere 1 into the ray
going down from sphere 0. -/
theorem axisScene_next_up (refl : ℝ) (st : traceState ℝ)
    (h : st.r = ⟨⟨0, 0, -2900⟩, ⟨0, 0, 1⟩⟩) :
    (bodyNext Real.sqrt (axisScene refl) st).r = ⟨⟨0, 0, -100⟩, ⟨0, 0, -1⟩⟩ := by
  rw [bodyNext_ray Real.sqrt (axisScene refl) st 0 0 exactSqrt_real
    (by rw [h]; norm_num [vectorDot]) (axisScene_up refl st.r h).1
    (axisScene_wf refl 0).1 (axisScene_wf refl 0).2, (axisScene_up refl st.r h).2, h]
  norm_num [hitPoint, hitNormal, vectorAdd, vectorScale, vectorSub, vectorDot, axisScene,
    sqrt_10000]

/-- The rays of the bounce chain of pixel `(0, 0)` in the axis scene: after the first
bounce the ray alternates between the two spheres on the axis. -/
theorem axisScene_chain (refl : ℝ) (r0 : ray ℝ) (k : Nat) :
    (stateAfter Real.sqrt (axisScene refl) (initialState r0 0 0) (2 * k + 1)).r
      = ⟨⟨0, 0, -100⟩, ⟨0, 0, -1⟩⟩ ∧
    (stateAfter Real.sqrt (axisScene refl) (initialState r0 0 0) (2 * k + 2)).r
      = ⟨⟨0, 0, -2900⟩, ⟨0, 0, 1⟩⟩ := by
  induction k with
  | zero =>
    have h1 : (stateAfter Real.sqrt (axisScene refl) (initialState r0 0 0) 1).r
        = ⟨⟨0, 0, -100⟩, ⟨0, 0, -1⟩⟩ :=
      axisScene_next_first refl _ (by simp [stateAfter, initialState])
    exact ⟨h1, axisScene_next_down refl _ h1⟩
  | succ k ih =>
    have h1 : (stateAfter Real.sqrt (axisScene refl) (initialState r0 0 0)
        (2 * (k + 1) + 1)).r = ⟨⟨0, 0, -100⟩, ⟨0, 0, -1⟩⟩ :=
      axisScene_next_up refl _ ih.2
    exact ⟨h1, axisScene_next_down refl _ h1⟩

/-- Every closest-hit query along the bounce chain of pixel `(0, 0)` in the axis
scene finds a sphere. -/
theorem axisScene_hits (refl : ℝ) (r0 : ray ℝ) (n : Nat) :
    ∃ j m : Fin 3,
      (closestHit Real.sqrt (axisScene refl).spheres
        (stateAfter Real.sqrt (axisScene refl) (initialState r0 0 0) n).r).currentSphere
        = (j.val : Int) ∧
      index3 ((axisScene refl).spheres j).material = some m ∧
      ((axisScene refl).materials m).reflection = refl := by
  have hm : ((axisScene refl).materials 0).reflection = refl := by simp [axisScene]
  rcases Nat.even_or_odd' n with ⟨k, hk | hk⟩
  · rcases Nat.eq_zero_or_pos k with h0 | hpos
    · subst h0
      subst hk
      exact ⟨0, 0, axisScene_primary refl r0, (axisScene_wf refl 0).2, hm⟩
    · obtain ⟨k1, rfl⟩ : ∃ k1, k = k1 + 1 := ⟨k - 1, by omega⟩
      have hr := (axisScene_chain refl r0 k1).2
      have hn : n = 2 * k1 + 2 := by omega
      rw [hn]
      exact ⟨0, 0, (axisScene_up refl _ hr).1, (axisScene_wf refl 0).2, hm⟩
  · have hr := (axisScene_chain refl r0 k).1
    rw [hk]
    exact ⟨1, 0, (axisScene_down refl _ hr).1, (axisScene_wf refl 1).2, hm⟩

/-- C7 at pixel `(0, 0)` of the axis scene with reflection 1, over the reals. -/
theorem mirror_fifteen_bounces_witness :
    exactSqrt Real.sqrt ∧
    (∀ i : Fin 3, ((axisScene (1 : ℝ)).spheres i).radius ≠ 0) ∧
    (∀ n : Nat, n < 15 → ∃ j m : Fin 3,
      (closestHit Real.sqrt (axisScene (1 : ℝ)).spheres
        (stateAfter Real.sqrt (axisScene 1)
          (initialState ⟨⟨0, 0, 0⟩, ⟨0, 0, 0⟩⟩ 0 0) n).r).currentSphere = (j.val : Int) ∧
      index3 ((axisScene (1 : ℝ)).spheres j).material = some m ∧
      ((axisScene (1 : ℝ)).materials m).reflection = 1) ∧
    (∀ fuel, 15 ≤ fuel →
      bounceLoop Real.sqrt (axisScene 1) fuel (initialState ⟨⟨0, 0, 0⟩, ⟨0, 0, 0⟩⟩ 0 0)
        = .done (stateAfter Real.sqrt (axisScene 1)
            (initialState ⟨⟨0, 0, 0⟩, ⟨0, 0, 0⟩⟩ 0 0) 15) 15) ∧
    (stateAfter Real.sqrt (axisScene (1 : ℝ))
      (initialState ⟨⟨0, 0, 0⟩, ⟨0, 0, 0⟩⟩ 0 0) 15).level = 15 :=
  ⟨exactSqrt_real, fun i => (axisScene_wf 1 i).1, fun n _ => axisScene_hits 1 _ n,
    (mirror_fifteen_bounces Real.sqrt (axisScene 1) ⟨⟨0, 0, 0⟩, ⟨0, 0, 0⟩⟩ 0 0 exactSqrt_real
      (fun i => (axisScene_wf 1 i).1) (fun n _ => axisScene_hits 1 _ n)).1,
    (mirror_fifteen_bounces Real.sqrt (axisScene 1) ⟨⟨0, 0, 0⟩, ⟨0, 0, 0⟩⟩ 0 0 exactSqrt_real
      (fun i => (axisScene_wf 1 i).1) (fun n _ => axisScene_hits 1 _ n)).2.1⟩

/-- C10 as amended: for a sphere of radius `r > 0` and a ray of unit direction that
starts at distance `d > r` from the centre and points toward the centre, the near
root (the smaller of `t0` and `t1`) is `d - r`, the square root being exact. -/
theorem near_root_through_centre (sqrtf : α → α) (r : ray α) (s : sphere α) (d k : α)
    (hsqrt : exactSqrt sqrtf) (hr : 0 < s.radius) (hd : s.radius < d)
    (hdist : d * d = vectorDot (vectorSub s.pos r.start) (vectorSub s.pos r.start))
    (hk : 0 < k) (hdir : r.dir = vectorScale k (vectorSub s.pos r.start))
    (hunit : vectorDot r.dir r.dir = 1) :
    candidate sqrtf r s = d - s.radius := by
  have hd0 : 0 < d := lt_trans hr hd
  obtain ⟨⟨ox, oy, oz⟩, ⟨dx, dy, dz⟩⟩ := r
  obtain ⟨⟨cx, cy, cz⟩, rad, m⟩ := s
  simp only [vectorDot, vectorSub, vectorScale, ray.mk.injEq, vector.mk.injEq] at hdist hdir hunit hr hd
  obtain ⟨hx, hy, hz⟩ := hdir
  have hkd : k * d = 1 := by
    have hsq : (k * d) * (k * d) = 1 := by
      rw [← hunit, hx, hy, hz]
      linear_combination k * k * hdist
    have hpos : 0 < k * d := mul_pos hk hd0
    nlinarith
  have hB' : 2 * (dx * (ox - cx) + dy * (oy - cy) + dz * (oz - cz)) = -(2 * d) := by
    rw [hx, hy, hz]
    linear_combination (2 * k) * hdist - 2 * d * hkd
  have hB : 2 * vectorDot (⟨dx, dy, dz⟩ : vector α)
      (vectorSub (⟨ox, oy, oz⟩ : vector α) ⟨cx, cy, cz⟩) = -(2 * d) := by
    simp only [vectorDot, vectorSub]
    exact hB'
  have hD : discriminant (⟨⟨ox, oy, oz⟩, ⟨dx, dy, dz⟩⟩ : ray α) ⟨⟨cx, cy, cz⟩, rad, m⟩
      = (2 * rad) * (2 * rad) := by
    simp only [discriminant, vectorDot, vectorSub]
    linear_combination (2 * (dx * (ox - cx) + dy * (oy - cy) + dz * (oz - cz)) - 2 * d) * hB'
      + (-4 * ((ox - cx) * (ox - cx) + (oy - cy) * (oy - cy) + (oz - cz) * (oz - cz)
        - rad * rad)) * hunit + 4 * hdist
  have hq : sqrtf ((2 * rad) * (2 * rad)) = 2 * rad := by
    obtain ⟨h0, h1⟩ := hsqrt ((2 * rad) * (2 * rad)) (mul_self_nonneg _)
    have hfac : (sqrtf ((2 * rad) * (2 * rad)) - 2 * rad)
        * (sqrtf ((2 * rad) * (2 * rad)) + 2 * rad) = 0 := by
      linear_combination h1
    rcases mul_eq_zero.mp hfac with h | h
    · linarith
    · linarith
  rw [candidate_eval sqrtf _ _ (-(2 * d)) ((2 * rad) * (2 * rad)) (2 * rad) hB hD hq
    (by linarith)]
  ring

/-- The real square root of 64. -/
theorem sqrt_64 : Real.sqrt 64 = 8 := by
  rw [show (64 : ℝ) = 8 * 8 by norm_num]
  exact Real.sqrt_mul_self (by norm_num)

/-- C10 fails as stated: the ray from the origin with the direction `(0, 0, 2)`, not
of unit length, points to the centre `(0, 0, 10)` of a sphere of radius 2 at distance
10, and the near root is 16, not `10 - 2`. -/
theorem near_root_counterexample :
    (0 : ℝ) < 2 ∧ (2 : ℝ) < 10 ∧
    (10 : ℝ) * 10 = vectorDot (vectorSub (⟨0, 0, 10⟩ : vector ℝ) ⟨0, 0, 0⟩)
      (vectorSub (⟨0, 0, 10⟩ : vector ℝ) ⟨0, 0, 0⟩) ∧
    (⟨0, 0, 2⟩ : vector ℝ) = vectorScale (1 / 5) (vectorSub (⟨0, 0, 10⟩ : vector ℝ) ⟨0, 0, 0⟩) ∧
    candidate Real.sqrt (⟨⟨0, 0, 0⟩, ⟨0, 0, 2⟩⟩ : ray ℝ) ⟨⟨0, 0, 10⟩, 2, 0⟩ = 16 ∧
    (16 : ℝ) ≠ 10 - 2 := by
  refine ⟨by norm_num, by norm_num, by norm_num [vectorDot, vectorSub],
    by norm_num [vectorScale, vectorSub], ?_, by norm_num⟩
  rw [candidate_eval Real.sqrt _ _ (-40) 64 8
    (by norm_num [vectorDot, vectorSub])
    (by norm_num [vectorDot, vectorSub, discriminant])
    sqrt_64 (by norm_num)]
  norm_num

/-- C10 as amended, at the ray from the origin with direction `(0, 0, 1)` and the
sphere of centre `(0, 0, 10)` and radius 2, over the reals. -/
theorem near_root_through_centre_witness :
    exactSqrt Real.sqrt ∧ (0 : ℝ) < 2 ∧ (2 : ℝ) < 10 ∧
    candidate Real.sqrt (⟨⟨0, 0, 0⟩, ⟨0, 0, 1⟩⟩ : ray ℝ) ⟨⟨0, 0, 10⟩, 2, 0⟩ = 10 - 2 :=
  ⟨exactSqrt_real, by norm_num, by norm_num,
    near_root_through_centre Real.sqrt (⟨⟨0, 0, 0⟩, ⟨0, 0, 1⟩⟩ : ray ℝ) ⟨⟨0, 0, 10⟩, 2, 0⟩
      10 (1 / 10) exactSqrt_real (by norm_num) (by norm_num)
      (by norm_num [vectorDot, vectorSub]) (by norm_num)
      (by norm_num [vectorScale, vectorSub]) (by norm_num [vectorDot])⟩

/-- The call on memory returns the flag of `intersectRaySphere`, stores its distance
and leaves the ray and the sphere as they were. -/
theorem intersectRaySphereCall_eq (sqrtf : α → α) (m : callMemory α) :
    intersectRaySphereCall sqrtf m
      = ((intersectRaySphere sqrtf m.r m.s m.t).1,
          ⟨m.r, m.s, (intersectRaySphere sqrtf m.r m.s m.t).2⟩) := by
  unfold intersectRaySphereCall intersectRaySphere
  dsimp only
  split_ifs <;> rfl

/-- C11: `intersectRaySphere` changes nothing but `*t`, and only on success: when it
returns false the memory is exactly as before; when it returns true `*t` is the
candidate root, strictly smaller than the incoming value; the ray and the sphere
are the same after the call in both cases. -/
theorem intersectRaySphere_frame (sqrtf : α → α) (m : callMemory α) :
    ((intersectRaySphereCall sqrtf m).1 = false → (intersectRaySphereCall sqrtf m).2 = m) ∧
    ((intersectRaySphereCall sqrtf m).1 = true →
      (intersectRaySphereCall sqrtf m).2.t = candidate sqrtf m.r m.s ∧
      (intersectRaySphereCall sqrtf m).2.t < m.t) ∧
    (intersectRaySphereCall sqrtf m).2.r = m.r ∧
    (intersectRaySphereCall sqrtf m).2.s = m.s ∧
    (intersectRaySphereCall sqrtf m).1 = (intersectRaySphere sqrtf m.r m.s m.t).1 ∧
    (intersectRaySphereCall sqrtf m).2.t = (intersectRaySphere sqrtf m.r m.s m.t).2 := by
  rw [intersectRaySphereCall_eq, intersectRaySphere_eq]
  split_ifs with h
  · refine ⟨fun hf => by simp at hf, fun _ => ⟨rfl, h.2.2⟩, rfl, rfl, rfl, rfl⟩
  · exact ⟨fun _ => rfl, fun ht => by simp at ht, rfl, rfl, rfl, rfl⟩

/-- A squared length is non-negative. -/
theorem vectorDot_self_nonneg (v : vector α) : 0 ≤ vectorDot v v := by
  unfold vectorDot
  nlinarith [mul_self_nonneg v.x, mul_self_nonneg v.y, mul_self_nonneg v.z]

/-- The loop body after a hit, by the test on the squared length of the normal and
the material lookup. -/
theorem bounceAt_eq (sqrtf : α → α) (sc : scene α) (st : traceState α) (t : α) (j : Fin 3) :
    bounceAt sqrtf sc st t j =
      if vectorDot (vectorSub (hitPoint st.r t) (sc.spheres j).pos)
          (vectorSub (hitPoint st.r t) (sc.spheres j).pos) = 0 then .brk st
      else
        match index3 (sc.spheres j).material with
        | none => .undef
        | some m => .cont (shadeAndReflect sqrtf sc st (hitPoint st.r t)
            (hitNormal sqrtf st.r t (sc.spheres j)) (sc.materials m)) := by
  rfl

/-- Mirror reflection at a unit normal preserves the squared length. -/
theorem reflect_sq (d n : vector α) (hn : vectorDot n n = 1) :
    vectorDot (vectorSub d (vectorScale (2 * vectorDot d n) n))
      (vectorSub d (vectorScale (2 * vectorDot d n) n)) = vectorDot d d := by
  obtain ⟨a, b, c⟩ := d
  obtain ⟨u, v, w⟩ := n
  simp only [vectorDot, vectorSub, vectorScale] at hn ⊢
  linear_combination 4 * (a * u + b * v + c * w) ^ 2 * hn

/-- The direction `dist / t` of a shadow ray is unit when `t = sqrtf (dist . dist)` is
exact and passed the test `t <= 0`. -/
theorem lightRay_unit (sqrtf : α → α) (hsqrt : exactSqrt sqrtf) (dist : vector α)
    (ht : ¬ sqrtf (vectorDot dist dist) ≤ 0) :
    vectorDot (vectorScale (1 / sqrtf (vectorDot dist dist)) dist)
      (vectorScale (1 / sqrtf (vectorDot dist dist)) dist) = 1 := by
  have hs := (hsqrt _ (vectorDot_self_nonneg dist)).2
  apply normalize_unit sqrtf dist hs
  intro h0
  rw [h0] at hs ht
  have : sqrtf 0 = 0 := mul_self_eq_zero.mp hs
  exact ht (le_of_eq this)

/-- A completed execution of the loop body keeps the direction of the ray unit, the
square root being exact. -/
theorem bounceBody_unit (sqrtf : α → α) (sc : scene α) (st st1 : traceState α)
    (hsqrt : exactSqrt sqrtf) (hunit : vectorDot st.r.dir st.r.dir = 1)
    (h : bounceBody sqrtf sc st = .cont st1) :
    vectorDot st1.r.dir st1.r.dir = 1 := by
  rcases closestHit_currentSphere sqrtf sc.spheres st.r with hm | ⟨j, hj⟩
  · rw [bounceBody_miss sqrtf sc st hm] at h
    exact absurd h (by simp)
  · rw [bounceBody_hit sqrtf sc st j hj, bounceAt_eq] at h
    split_ifs at h with htemp
    cases hmat : index3 (sc.spheres j).material with
    | none =>
      rw [hmat] at h
      exact absurd h (by simp)
    | some m =>
      rw [hmat] at h
      simp only [bodyResult.cont.injEq] at h
      rw [← h]
      have hn := normalize_unit sqrtf _ (hsqrt _ (vectorDot_self_nonneg _)).2 htemp
      exact reflect_unit st.r.dir _ hunit hn

/-- Whatever way the loop body ends, the ray it leaves has a unit direction. -/
theorem bodyNext_unit (sqrtf : α → α) (sc : scene α) (st : traceState α)
    (hsqrt : exactSqrt sqrtf) (hunit : vectorDot st.r.dir st.r.dir = 1) :
    vectorDot (bodyNext sqrtf sc st).r.dir (bodyNext sqrtf sc st).r.dir = 1 := by
  unfold bodyNext
  cases hb : bounceBody sqrtf sc st with
  | undef => exact hunit
  | brk s1 =>
    rw [bounceBody_brk sqrtf sc st s1 hb]
    exact hunit
  | cont s1 => exact bounceBody_unit sqrtf sc st s1 hsqrt hunit hb

/-- The direction of the ray is unit at the start of every bounce of the chain. -/
theorem stateAfter_unit (sqrtf : α → α) (sc : scene α) (r0 : ray α) (x y : Nat)
    (hsqrt : exactSqrt sqrtf) (n : Nat) :
    vectorDot (stateAfter sqrtf sc (initialState r0 x y) n).r.dir
      (stateAfter sqrtf sc (initialState r0 x y) n).r.dir = 1 := by
  induction n with
  | zero => simp [stateAfter, initialState, vectorDot]
  | succ k ih => exact bodyNext_unit sqrtf sc _ hsqrt ih

/-- The chain started one body later. -/
theorem stateAfter_succ (sqrtf : α → α) (sc : scene α) (st : traceState α) (n : Nat) :
    stateAfter sqrtf sc st (n + 1) = stateAfter sqrtf sc (bodyNext sqrtf sc st) n := by
  induction n with
  | zero => rfl
  | succ k ih =>
    conv_lhs => rw [stateAfter, ih]
    rfl

/-- The state in which the loop ends after `k` executions of the body is the state
of the chain after `k` bodies. -/
theorem bounceLoop_stateAfter (sqrtf : α → α) (sc : scene α) :
    ∀ (fuel : Nat) (st st1 : traceState α) (k : Nat),
      bounceLoop sqrtf sc fuel st = .done st1 k → st1 = stateAfter sqrtf sc st k := by
  intro fuel
  induction fuel with
  | zero =>
    intro st st1 k h
    simp [bounceLoop] at h
  | succ f ih =>
    intro st st1 k h
    rw [bounceLoop] at h
    cases hb : bounceBody sqrtf sc st with
    | undef => rw [hb] at h; exact absurd h (by simp)
    | brk s1 =>
      rw [hb] at h
      simp only [loopResult.done.injEq] at h
      rw [← h.1, ← h.2]
      simp [stateAfter, bodyNext, hb]
    | cont s1 =>
      rw [hb] at h
      dsimp only at h
      have hn : bodyNext sqrtf sc st = s1 := by simp [bodyNext, hb]
      split_ifs at h with hc
      · cases hl : bounceLoop sqrtf sc f s1 with
        | outOfFuel => rw [hl] at h; exact absurd h (by simp)
        | undef => rw [hl] at h; exact absurd h (by simp)
        | done s2 k2 =>
          rw [hl] at h
          simp only [loopResult.done.injEq] at h
          rw [← h.1, ← h.2, stateAfter_succ, hn]
          exact ih s1 s2 k2 hl
      · simp only [loopResult.done.injEq] at h
        rw [← h.1, ← h.2]
        simp [stateAfter, hn]

/-- The instrumented turn of the light loop computes the colour of `lightStep`. -/
theorem lightStepRays_fst (sqrtf : α → α) (spheres : Fin 3 → sphere α) (newStart n : vector α)
    (currentMat : material α) (coef : α) (c : colour α) (currentLight : light α) :
    (lightStepRays sqrtf spheres newStart n currentMat coef c currentLight).1
      = lightStep sqrtf spheres newStart n currentMat coef c currentLight := by
  unfold lightStepRays lightStep
  dsimp only
  split_ifs <;> rfl

/-- The rays one turn of the light loop hands to `intersectRaySphere` have a unit
direction, the square root being exact. -/
theorem lightStepRays_unit (sqrtf : α → α) (hsqrt : exactSqrt sqrtf)
    (spheres : Fin 3 → sphere α) (newStart n : vector α)
    (currentMat : material α) (coef : α) (c : colour α) (currentLight : light α)
    (lr : ray α)
    (h : lr ∈ (lightStepRays sqrtf spheres newStart n currentMat coef c currentLight).2) :
    vectorDot lr.dir lr.dir = 1 := by
  unfold lightStepRays at h
  dsimp only at h
  split_ifs at h with h1 h2 h3
  · simp at h
  · simp at h
  · simp only [List.mem_map] at h
    obtain ⟨_, _, rfl⟩ := h
    exact lightRay_unit sqrtf hsqrt _ h2
  · simp only [List.mem_map] at h
    obtain ⟨_, _, rfl⟩ := h
    exact lightRay_unit sqrtf hsqrt _ h2

/-- The instrumented light loop computes the colour of `lightLoop`. -/
theorem lightLoopRays_fst (sqrtf : α → α) (sc : scene α) (newStart n : vector α)
    (currentMat : material α) (coef : α) (c : colour α) :
    (lightLoopRays sqrtf sc newStart n currentMat coef c).1
      = lightLoop sqrtf sc newStart n currentMat coef c := by
  unfold lightLoopRays lightLoop
  simp only [List.foldl_cons, List.foldl_nil, lightStepRays_fst]

/-- The rays the light loop hands to `intersectRaySphere` have a unit direction. -/
theorem lightLoopRays_unit (sqrtf : α → α) (hsqrt : exactSqrt sqrtf) (sc : scene α)
    (newStart n : vector α) (currentMat : material α) (coef : α) (c : colour α) (lr : ray α)
    (h : lr ∈ (lightLoopRays sqrtf sc newStart n currentMat coef c).2) :
    vectorDot lr.dir lr.dir = 1 := by
  unfold lightLoopRays at h
  simp only [List.foldl_cons, List.foldl_nil, List.nil_append, List.mem_append] at h
  rcases h with (h | h) | h
  · exact lightStepRays_unit sqrtf hsqrt _ _ _ _ _ _ _ lr h
  · exact lightStepRays_unit sqrtf hsqrt _ _ _ _ _ _ _ lr h
  · exact lightStepRays_unit sqrtf hsqrt _ _ _ _ _ _ _ lr h

/-- The instrumented end of the loop body computes the state of `shadeAndReflect`. -/
theorem shadeAndReflectRays_fst (sqrtf : α → α) (sc : scene α) (st : traceState α)
    (newStart n : vector α) (currentMat : material α) :
    (shadeAndReflectRays sqrtf sc st newStart n currentMat).1
      = shadeAndReflect sqrtf sc st newStart n currentMat := by
  unfold shadeAndReflectRays shadeAndReflect
  simp only [lightLoopRays_fst]

/-- The instrumented `bounceAt` computes the result of `bounceAt`. -/
theorem bounceAtRays_fst (sqrtf : α → α) (sc : scene α) (st : traceState α) (t : α)
    (j : Fin 3) :
    (bounceAtRays sqrtf sc st t j).1 = bounceAt sqrtf sc st t j := by
  unfold bounceAtRays bounceAt
  dsimp only
  split_ifs
  · rfl
  · cases index3 (sc.spheres j).material with
    | none => rfl
    | some m => simp only [shadeAndReflectRays_fst]

/-- The rays `bounceAt` hands to `intersectRaySphere` have a unit direction. -/
theorem bounceAtRays_unit (sqrtf : α → α) (hsqrt : exactSqrt sqrtf) (sc : scene α)
    (st : traceState α) (t : α) (j : Fin 3) (lr : ray α)
    (h : lr ∈ (bounceAtRays sqrtf sc st t j).2) :
    vectorDot lr.dir lr.dir = 1 := by
  unfold bounceAtRays at h
  dsimp only at h
  split_ifs at h
  · simp at h
  · cases hm : index3 (sc.spheres j).material with
    | none => rw [hm] at h; simp at h
    | some m =>
      rw [hm] at h
      exact lightLoopRays_unit sqrtf hsqrt sc _ _ _ _ _ lr h

/-- The instrumented loop body computes the result of `bounceBody`. -/
theorem bounceBodyRays_fst (sqrtf : α → α) (sc : scene α) (st : traceState α) :
    (bounceBodyRays sqrtf sc st).1 = bounceBody sqrtf sc st := by
  unfold bounceBodyRays bounceBody
  split_ifs
  · rfl
  · cases index3 (closestHit sqrtf sc.spheres st.r).currentSphere with
    | none => rfl
    | some cs => exact bounceAtRays_fst sqrtf sc st _ cs

/-- Every ray the loop body hands to `intersectRaySphere` has a unit direction when
the ray of the state it starts from has one, the square root being exact. -/
theorem bounceBodyRays_unit (sqrtf : α → α) (hsqrt : exactSqrt sqrtf) (sc : scene α)
    (st : traceState α) (hunit : vectorDot st.r.dir st.r.dir = 1) (lr : ray α)
    (h : lr ∈ (bounceBodyRays sqrtf sc st).2) :
    vectorDot lr.dir lr.dir = 1 := by
  have hr : ∀ q : ray α, q ∈ [st.r, st.r, st.r] → vectorDot q.dir q.dir = 1 := by
    intro q hq
    simp only [List.mem_cons, List.mem_singleton, List.not_mem_nil, or_false, or_self] at hq
    rw [hq]
    exact hunit
  unfold bounceBodyRays at h
  split_ifs at h
  · exact hr lr h
  · cases hi : index3 (closestHit sqrtf sc.spheres st.r).currentSphere with
    | none =>
      rw [hi] at h
      exact hr lr h
    | some cs =>
      rw [hi] at h
      rcases List.mem_append.mp h with h1 | h1
      · exact hr lr h1
      · exact bounceAtRays_unit sqrtf hsqrt sc st _ cs lr h1

/-- The shadow query tests at least one sphere. -/
theorem shadowQuery_tested_ne_nil (sqrtf : α → α) (spheres : Fin 3 → sphere α)
    (lightRay : ray α) (t : α) : (shadowQuery sqrtf spheres lightRay t).2 ≠ [] := by
  unfold shadowQuery
  rw [shadowLoop]
  split_ifs <;> simp

/-- A turn of the light loop that passes both `continue`s hands its shadow ray to
`intersectRaySphere`. -/
theorem lightStepRays_mem (sqrtf : α → α) (spheres : Fin 3 → sphere α) (newStart n : vector α)
    (currentMat : material α) (coef : α) (c : colour α) (currentLight : light α)
    (h1 : ¬ vectorDot n (vectorSub currentLight.pos newStart) ≤ 0)
    (h2 : ¬ sqrtf (vectorDot (vectorSub currentLight.pos newStart)
      (vectorSub currentLight.pos newStart)) ≤ 0) :
    (⟨newStart, vectorScale (1 / sqrtf (vectorDot (vectorSub currentLight.pos newStart)
        (vectorSub currentLight.pos newStart))) (vectorSub currentLight.pos newStart)⟩ : ray α)
      ∈ (lightStepRays sqrtf spheres newStart n currentMat coef c currentLight).2 := by
  unfold lightStepRays
  dsimp only
  rw [if_neg h1, if_neg h2]
  obtain ⟨k, ks, hk⟩ := List.exists_cons_of_ne_nil
    (shadowQuery_tested_ne_nil sqrtf spheres
      ⟨newStart, vectorScale (1 / sqrtf (vectorDot (vectorSub currentLight.pos newStart)
        (vectorSub currentLight.pos newStart))) (vectorSub currentLight.pos newStart)⟩
      (sqrtf (vectorDot (vectorSub currentLight.pos newStart)
        (vectorSub currentLight.pos newStart))))
  split_ifs
  · dsimp only
    rw [hk, List.map_cons]
    exact List.mem_cons_self _ _
  · dsimp only
    rw [hk, List.map_cons]
    exact List.mem_cons_self _ _

/-- C12: in exact arithmetic every ray handed to `intersectRaySphere` during the
trace of a pixel has a unit direction.  The rays handed over by one loop body are
logged by `bounceBodyRays`, which computes what `bounceBody` computes (and
`lightStepRays` what `lightStep` computes); the log holds the global ray for the
closest-hit query and the shadow ray of every light that passes both `continue`s;
every ray logged at any bounce of the pixel has a unit direction.  In particular the
primary direction is unit, a shadow ray direction `dist / t` is unit, the mirror
reflection at a unit normal preserves the squared length, and the ray has a unit
direction at the start of every bounce; the state the loop ends in is one of the
states of that chain. -/
theorem unit_directions (sqrtf : α → α) (sc : scene α) (r0 : ray α) (x y : Nat)
    (hsqrt : exactSqrt sqrtf) :
    vectorDot (initialState r0 x y).r.dir (initialState r0 x y).r.dir = 1 ∧
    (∀ st : traceState α, (bounceBodyRays sqrtf sc st).1 = bounceBody sqrtf sc st) ∧
    (∀ (newStart n : vector α) (currentMat : material α) (coef : α) (c : colour α)
      (currentLight : light α),
      (lightStepRays sqrtf sc.spheres newStart n currentMat coef c currentLight).1
        = lightStep sqrtf sc.spheres newStart n currentMat coef c currentLight) ∧
    (∀ st : traceState α, st.r ∈ (bounceBodyRays sqrtf sc st).2) ∧
    (∀ (newStart n : vector α) (currentMat : material α) (coef : α) (c : colour α)
      (currentLight : light α),
      ¬ vectorDot n (vectorSub currentLight.pos newStart) ≤ 0 →
      ¬ sqrtf (vectorDot (vectorSub currentLight.pos newStart)
        (vectorSub currentLight.pos newStart)) ≤ 0 →
      (⟨newStart, vectorScale (1 / sqrtf (vectorDot (vectorSub currentLight.pos newStart)
          (vectorSub currentLight.pos newStart))) (vectorSub currentLight.pos newStart)⟩ :
          ray α)
        ∈ (lightStepRays sqrtf sc.spheres newStart n currentMat coef c currentLight).2) ∧
    (∀ (n : Nat) (lr : ray α),
      lr ∈ (bounceBodyRays sqrtf sc (stateAfter sqrtf sc (initialState r0 x y) n)).2 →
      vectorDot lr.dir lr.dir = 1) ∧
    (∀ (newStart : vector α) (currentLight : light α),
      ¬ sqrtf (vectorDot (vectorSub currentLight.pos newStart)
          (vectorSub currentLight.pos newStart)) ≤ 0 →
      vectorDot
        (vectorScale (1 / sqrtf (vectorDot (vectorSub currentLight.pos newStart)
          (vectorSub currentLight.pos newStart))) (vectorSub currentLight.pos newStart))
        (vectorScale (1 / sqrtf (vectorDot (vectorSub currentLight.pos newStart)
          (vectorSub currentLight.pos newStart))) (vectorSub currentLight.pos newStart))
        = 1) ∧
    (∀ d n : vector α, vectorDot n n = 1 →
      vectorDot (vectorSub d (vectorScale (2 * vectorDot d n) n))
        (vectorSub d (vectorScale (2 * vectorDot d n) n)) = vectorDot d d) ∧
    (∀ n : Nat, vectorDot (stateAfter sqrtf sc (initialState r0 x y) n).r.dir
      (stateAfter sqrtf sc (initialState r0 x y) n).r.dir = 1) ∧
    (∀ (fuel : Nat) (st : traceState α) (k : Nat),
      bounceLoop sqrtf sc fuel (initialState r0 x y) = .done st k →
      st = stateAfter sqrtf sc (initialState r0 x y) k) := by
  refine ⟨?_, bounceBodyRays_fst sqrtf sc, ?_, ?_, ?_, ?_,
    fun p L ht => lightRay_unit sqrtf hsqrt _ ht, reflect_sq,
    stateAfter_unit sqrtf sc r0 x y hsqrt,
    fun fuel st k h => bounceLoop_stateAfter sqrtf sc fuel _ st k h⟩
  · simp [initialState, vectorDot]
  · intro newStart n currentMat coef c currentLight
    exact lightStepRays_fst sqrtf sc.spheres newStart n currentMat coef c currentLight
  · intro st
    unfold bounceBodyRays
    split_ifs
    · simp
    · cases index3 (closestHit sqrtf sc.spheres st.r).currentSphere <;> simp
  · intro newStart n currentMat coef c currentLight h1 h2
    exact lightStepRays_mem sqrtf sc.spheres newStart n currentMat coef c currentLight h1 h2
  · intro n lr h
    exact bounceBodyRays_unit sqrtf hsqrt sc _ (stateAfter_unit sqrtf sc r0 x y hsqrt n) lr h

/-- C12 at pixel `(0, 0)` of the scene of `main` at `scale = 1`, over the reals. -/
theorem unit_directions_witness :
    exactSqrt Real.sqrt ∧
    (∀ (n : Nat) (lr : ray ℝ),
      lr ∈ (bounceBodyRays Real.sqrt (mainScene 1 : scene ℝ)
        (stateAfter Real.sqrt (mainScene 1 : scene ℝ)
          (initialState ⟨⟨0, 0, 0⟩, ⟨0, 0, 0⟩⟩ 0 0) n)).2 →
      vectorDot lr.dir lr.dir = 1) ∧
    ∀ n : Nat, vectorDot
      (stateAfter Real.sqrt (mainScene 1 : scene ℝ)
        (initialState ⟨⟨0, 0, 0⟩, ⟨0, 0, 0⟩⟩ 0 0) n).r.dir
      (stateAfter Real.sqrt (mainScene 1 : scene ℝ)
        (initialState ⟨⟨0, 0, 0⟩, ⟨0, 0, 0⟩⟩ 0 0) n).r.dir = 1 :=
  ⟨exactSqrt_real,
    (unit_directions Real.sqrt (mainScene 1 : scene ℝ) ⟨⟨0, 0, 0⟩, ⟨0, 0, 0⟩⟩ 0 0
      exactSqrt_real).2.2.2.2.2.1,
    (unit_directions Real.sqrt (mainScene 1 : scene ℝ) ⟨⟨0, 0, 0⟩, ⟨0, 0, 0⟩⟩ 0 0
      exactSqrt_real).2.2.2.2.2.2.2.2.1⟩

/-- At a hit found by the closest-hit query with a ray of unit direction, the squared
length of the normal is the squared radius of the sphere hit. -/
theorem hit_temp (sqrtf : α → α) (sc : scene α) (st : traceState α) (j : Fin 3)
    (hsqrt : exactSqrt sqrtf) (hunit : vectorDot st.r.dir st.r.dir = 1)
    (hhit : (closestHit sqrtf sc.spheres st.r).currentSphere = (j.val : Int)) :
    vectorDot
        (vectorSub (hitPoint st.r (closestHit sqrtf sc.spheres st.r).t) (sc.spheres j).pos)
        (vectorSub (hitPoint st.r (closestHit sqrtf sc.spheres st.r).t) (sc.spheres j).pos)
      = (sc.spheres j).radius * (sc.spheres j).radius := by
  obtain ⟨hv, ht⟩ := closestHit_hit sqrtf sc.spheres st.r j hhit
  rw [ht]
  exact candidate_on_sphere sqrtf st.r (sc.spheres j) hunit (hsqrt _ hv.1).2

/-- C16: for a ray of unit direction, in exact arithmetic, whenever
`intersectRaySphere` reports a hit with distance `t` the point `start + t * dir` has
squared distance `radius * radius` from the centre; consequently, with spheres of
non-zero radius, at every bounce of a pixel the squared length `temp` of the normal
is not zero, and the only `break` the loop body takes is the one of a miss. -/
theorem hit_on_surface (sqrtf : α → α) (r : ray α) (s : sphere α) (t : α)
    (sc : scene α) (r0 : ray α) (x y : Nat)
    (hsqrt : exactSqrt sqrtf) (hunit : vectorDot r.dir r.dir = 1)
    (hrad : ∀ i : Fin 3, (sc.spheres i).radius ≠ 0) :
    ((intersectRaySphere sqrtf r s t).1 = true →
      vectorDot
        (vectorSub (vectorAdd r.start (vectorScale (intersectRaySphere sqrtf r s t).2 r.dir))
          s.pos)
        (vectorSub (vectorAdd r.start (vectorScale (intersectRaySphere sqrtf r s t).2 r.dir))
          s.pos)
        = s.radius * s.radius) ∧
    (∀ (n : Nat) (j : Fin 3),
      (closestHit sqrtf sc.spheres
        (stateAfter sqrtf sc (initialState r0 x y) n).r).currentSphere = (j.val : Int) →
      vectorDot
        (vectorSub (hitPoint (stateAfter sqrtf sc (initialState r0 x y) n).r
          (closestHit sqrtf sc.spheres (stateAfter sqrtf sc (initialState r0 x y) n).r).t)
          (sc.spheres j).pos)
        (vectorSub (hitPoint (stateAfter sqrtf sc (initialState r0 x y) n).r
          (closestHit sqrtf sc.spheres (stateAfter sqrtf sc (initialState r0 x y) n).r).t)
          (sc.spheres j).pos) ≠ 0) ∧
    (∀ (n : Nat) (st1 : traceState α),
      bounceBody sqrtf sc (stateAfter sqrtf sc (initialState r0 x y) n) = .brk st1 →
      (closestHit sqrtf sc.spheres
        (stateAfter sqrtf sc (initialState r0 x y) n).r).currentSphere = -1) := by
  have htemp : ∀ (n : Nat) (j : Fin 3),
      (closestHit sqrtf sc.spheres
        (stateAfter sqrtf sc (initialState r0 x y) n).r).currentSphere = (j.val : Int) →
      vectorDot
        (vectorSub (hitPoint (stateAfter sqrtf sc (initialState r0 x y) n).r
          (closestHit sqrtf sc.spheres (stateAfter sqrtf sc (initialState r0 x y) n).r).t)
          (sc.spheres j).pos)
        (vectorSub (hitPoint (stateAfter sqrtf sc (initialState r0 x y) n).r
          (closestHit sqrtf sc.spheres (stateAfter sqrtf sc (initialState r0 x y) n).r).t)
          (sc.spheres j).pos) ≠ 0 := by
    intro n j hj
    rw [hit_temp sqrtf sc _ j hsqrt (stateAfter_unit sqrtf sc r0 x y hsqrt n) hj]
    exact mul_ne_zero (hrad j) (hrad j)
  refine ⟨?_, htemp, ?_⟩
  · rw [intersectRaySphere_eq]
    split_ifs with h
    · intro _
      exact candidate_on_sphere sqrtf r s hunit (hsqrt _ h.1).2
    · intro hf
      simp at hf
  · intro n st1 hb
    rcases closestHit_currentSphere sqrtf sc.spheres
        (stateAfter sqrtf sc (initialState r0 x y) n).r with hm | ⟨j, hj⟩
    · exact hm
    · rw [bounceBody_hit sqrtf sc _ j hj, bounceAt_eq, if_neg (htemp n j hj)] at hb
      cases hmat : index3 (sc.spheres j).material with
      | none => rw [hmat] at hb; exact absurd hb (by simp)
      | some m => rw [hmat] at hb; exact absurd hb (by simp)

/-- The real square root of 16. -/
theorem sqrt_16 : Real.sqrt 16 = 4 := by
  rw [show (16 : ℝ) = 4 * 4 by norm_num]
  exact Real.sqrt_mul_self (by norm_num)

/-- The ray from the origin with direction `(0, 0, 1)` hits the sphere of centre
`(0, 0, 10)` and radius 2. -/
theorem axis_ray_hits :
    (intersectRaySphere Real.sqrt (⟨⟨0, 0, 0⟩, ⟨0, 0, 1⟩⟩ : ray ℝ) ⟨⟨0, 0, 10⟩, 2, 0⟩
      20000).1 = true := by
  have hc := candidate_eval Real.sqrt (⟨⟨0, 0, 0⟩, ⟨0, 0, 1⟩⟩ : ray ℝ) ⟨⟨0, 0, 10⟩, 2, 0⟩
    (-20) 16 4
    (by norm_num [vectorDot, vectorSub])
    (by norm_num [vectorDot, vectorSub, discriminant])
    sqrt_16 (by norm_num)
  rw [intersectRaySphere_eq, if_pos]
  refine ⟨by norm_num [vectorDot, vectorSub, discriminant], ?_, ?_⟩
  · rw [hc]; norm_num [epsilon]
  · rw [hc]; norm_num

/-- C16 at the ray from the origin with direction `(0, 0, 1)`, the sphere of centre
`(0, 0, 10)` and radius 2, and pixel `(0, 0)` of the axis scene, over the reals. -/
theorem hit_on_surface_witness :
    exactSqrt Real.sqrt ∧
    vectorDot (⟨⟨0, 0, 0⟩, ⟨0, 0, 1⟩⟩ : ray ℝ).dir (⟨⟨0, 0, 0⟩, ⟨0, 0, 1⟩⟩ : ray ℝ).dir = 1 ∧
    (∀ i : Fin 3, ((axisScene (1 : ℝ)).spheres i).radius ≠ 0) ∧
    (intersectRaySphere Real.sqrt (⟨⟨0, 0, 0⟩, ⟨0, 0, 1⟩⟩ : ray ℝ) ⟨⟨0, 0, 10⟩, 2, 0⟩
        20000).1 = true ∧
    vectorDot
        (vectorSub (vectorAdd (⟨⟨0, 0, 0⟩, ⟨0, 0, 1⟩⟩ : ray ℝ).start
          (vectorScale (intersectRaySphere Real.sqrt (⟨⟨0, 0, 0⟩, ⟨0, 0, 1⟩⟩ : ray ℝ)
            ⟨⟨0, 0, 10⟩, 2, 0⟩ 20000).2 (⟨⟨0, 0, 0⟩, ⟨0, 0, 1⟩⟩ : ray ℝ).dir))
          (⟨⟨0, 0, 10⟩, 2, 0⟩ : sphere ℝ).pos)
        (vectorSub (vectorAdd (⟨⟨0, 0, 0⟩, ⟨0, 0, 1⟩⟩ : ray ℝ).start
          (vectorScale (intersectRaySphere Real.sqrt (⟨⟨0, 0, 0⟩, ⟨0, 0, 1⟩⟩ : ray ℝ)
            ⟨⟨0, 0, 10⟩, 2, 0⟩ 20000).2 (⟨⟨0, 0, 0⟩, ⟨0, 0, 1⟩⟩ : ray ℝ).dir))
          (⟨⟨0, 0, 10⟩, 2, 0⟩ : sphere ℝ).pos)
      = (⟨⟨0, 0, 10⟩, 2, 0⟩ : sphere ℝ).radius * (⟨⟨0, 0, 10⟩, 2, 0⟩ : sphere ℝ).radius :=
  ⟨exactSqrt_real, by norm_num [vectorDot], fun i => (axisScene_wf 1 i).1, axis_ray_hits,
    (hit_on_surface Real.sqrt (⟨⟨0, 0, 0⟩, ⟨0, 0, 1⟩⟩ : ray ℝ) ⟨⟨0, 0, 10⟩, 2, 0⟩ 20000
      (axisScene 1) ⟨⟨0, 0, 0⟩, ⟨0, 0, 0⟩⟩ 0 0 exactSqrt_real (by norm_num [vectorDot])
      (fun i => (axisScene_wf 1 i).1)).1 axis_ray_hits⟩

/-- The division of one turn of the light loop has a positive divisor. -/
theorem lightDivisions_pos (sqrtf : α → α) (newStart n : vector α) (currentLight : light α)
    (t : α) (h : division.lightRay t ∈ lightDivisions sqrtf newStart n currentLight) :
    0 < t := by
  unfold lightDivisions at h
  dsimp only at h
  split_ifs at h with h1 h2
  · simp at h
  · simp at h
  · simp only [List.mem_singleton, division.lightRay.injEq] at h
    rw [h]
    exact not_le.mp h2

/-- One turn of the light loop has no `normalise` division. -/
theorem lightDivisions_normalise (sqrtf : α → α) (newStart n : vector α)
    (currentLight : light α) (temp : α) :
    division.normalise temp ∉ lightDivisions sqrtf newStart n currentLight := by
  unfold lightDivisions
  dsimp only
  split_ifs <;> simp

/-- The divisions of `bounceAt`: `temp` is positive and the divisors `t` are positive. -/
theorem bounceAtDivisions_pos (sqrtf : α → α) (sc : scene α) (st : traceState α) (t : α)
    (j : Fin 3) :
    (∀ temp : α, division.normalise temp ∈ bounceAtDivisions sqrtf sc st t j →
      0 < temp ∧ (exactSqrt sqrtf → 0 < sqrtf temp)) ∧
    (∀ u : α, division.lightRay u ∈ bounceAtDivisions sqrtf sc st t j → 0 < u) := by
  unfold bounceAtDivisions
  dsimp only
  split_ifs with h0
  · simp
  · have hpos : 0 < vectorDot
        (vectorSub (vectorAdd st.r.start (vectorScale t st.r.dir)) (sc.spheres j).pos)
        (vectorSub (vectorAdd st.r.start (vectorScale t st.r.dir)) (sc.spheres j).pos) :=
      lt_of_le_of_ne (vectorDot_self_nonneg _) (Ne.symm h0)
    constructor
    · intro temp hmem
      have htemp : temp = vectorDot
          (vectorSub (vectorAdd st.r.start (vectorScale t st.r.dir)) (sc.spheres j).pos)
          (vectorSub (vectorAdd st.r.start (vectorScale t st.r.dir)) (sc.spheres j).pos) := by
        rcases List.mem_cons.mp hmem with h | h
        · simpa using h
        · cases hm : index3 (sc.spheres j).material with
          | none => rw [hm] at h; simp at h
          | some m =>
            rw [hm] at h
            simp only [List.mem_flatMap] at h
            obtain ⟨i, _, hi⟩ := h
            exact absurd hi (lightDivisions_normalise sqrtf _ _ _ _)
      rw [htemp]
      refine ⟨hpos, fun hsqrt => ?_⟩
      obtain ⟨hq0, hq⟩ := hsqrt _ (le_of_lt hpos)
      rcases lt_or_eq_of_le hq0 with hlt | heq
      · exact hlt
      · rw [← heq, mul_zero] at hq
        exact absurd hq.symm (ne_of_gt hpos)
    · intro u hmem
      rcases List.mem_cons.mp hmem with h | h
      · simp at h
      · cases hm : index3 (sc.spheres j).material with
        | none => rw [hm] at h; simp at h
        | some m =>
          rw [hm] at h
          simp only [List.mem_flatMap] at h
          obtain ⟨i, _, hi⟩ := h
          exact lightDivisions_pos sqrtf _ _ _ u hi

/-- C17: both divisions of the loop body are executed with a positive divisor only,
for every scene and every state of a pixel: `1.0f / sqrtf(temp)` is reached only with
`temp > 0` (and then `sqrtf(temp) > 0`, the square root being exact), and `1/t` only
with `t > 0`; the first is executed exactly when a hit does not end in the `break`
on `temp == 0`, and a light whose turn executes no division adds nothing. -/
theorem divisions_positive (sqrtf : α → α) (sc : scene α) (st : traceState α) :
    (∀ temp : α, division.normalise temp ∈ bodyDivisions sqrtf sc st →
      0 < temp ∧ (exactSqrt sqrtf → 0 < sqrtf temp)) ∧
    (∀ t : α, division.lightRay t ∈ bodyDivisions sqrtf sc st → 0 < t) ∧
    (∀ (t : α) (j : Fin 3),
      bounceAtDivisions sqrtf sc st t j = [] ↔ bounceAt sqrtf sc st t j = .brk st) ∧
    (∀ (newStart n : vector α) (currentMat : material α) (coef : α) (c : colour α)
      (currentLight : light α),
      lightDivisions sqrtf newStart n currentLight = [] →
      lightStep sqrtf sc.spheres newStart n currentMat coef c currentLight = c) := by
  refine ⟨?_, ?_, ?_, ?_⟩
  · intro temp h
    unfold bodyDivisions at h
    split_ifs at h with hm
    · simp at h
    · cases hi : index3 (closestHit sqrtf sc.spheres st.r).currentSphere with
      | none => rw [hi] at h; simp at h
      | some cs =>
        rw [hi] at h
        exact (bounceAtDivisions_pos sqrtf sc st _ cs).1 temp h
  · intro t h
    unfold bodyDivisions at h
    split_ifs at h with hm
    · simp at h
    · cases hi : index3 (closestHit sqrtf sc.spheres st.r).currentSphere with
      | none => rw [hi] at h; simp at h
      | some cs =>
        rw [hi] at h
        exact (bounceAtDivisions_pos sqrtf sc st _ cs).2 t h
  · intro t j
    unfold bounceAtDivisions bounceAt
    dsimp only
    split_ifs with h0
    · simp
    · cases hm : index3 (sc.spheres j).material <;> simp
  · intro newStart n currentMat coef c currentLight h
    unfold lightDivisions at h
    unfold lightStep
    dsimp only at h ⊢
    split_ifs at h with h1 h2
    · rw [if_pos h1]
    · rw [if_neg h1, if_pos h2]

/-- The cosine factor of a lambert term that is added is positive: the light passed
the test `dot(n, dist) <= 0` and `t` the test `t <= 0`. -/
theorem lambert_cos_pos (n dist : vector α) (t : α) (hd : ¬ vectorDot n dist ≤ 0)
    (ht : ¬ t ≤ 0) : 0 < vectorDot (vectorScale (1 / t) dist) n := by
  have h1 : 0 < vectorDot n dist := not_le.mp hd
  have h2 : 0 < 1 / t := one_div_pos.mpr (not_le.mp ht)
  have he : vectorDot (vectorScale (1 / t) dist) n = (1 / t) * vectorDot n dist := by
    simp only [vectorDot, vectorScale]
    ring
  rw [he]
  exact mul_pos h2 h1

/-- One turn of the light loop keeps the colour non-negative. -/
theorem lightStep_nonneg (sqrtf : α → α) (spheres : Fin 3 → sphere α) (newStart n : vector α)
    (currentMat : material α) (coef : α) (c : colour α) (currentLight : light α)
    (hcoef : 0 ≤ coef)
    (hm : 0 ≤ currentMat.diffuse.red ∧ 0 ≤ currentMat.diffuse.green ∧
      0 ≤ currentMat.diffuse.blue)
    (hl : 0 ≤ currentLight.intensity.red ∧ 0 ≤ currentLight.intensity.green ∧
      0 ≤ currentLight.intensity.blue)
    (hc : 0 ≤ c.red ∧ 0 ≤ c.green ∧ 0 ≤ c.blue) :
    0 ≤ (lightStep sqrtf spheres newStart n currentMat coef c currentLight).red ∧
    0 ≤ (lightStep sqrtf spheres newStart n currentMat coef c currentLight).green ∧
    0 ≤ (lightStep sqrtf spheres newStart n currentMat coef c currentLight).blue := by
  unfold lightStep
  dsimp only
  split_ifs with h1 h2 h3
  · exact hc
  · exact hc
  · exact hc
  · have hlam : 0 ≤ vectorDot (vectorScale
        (1 / sqrtf (vectorDot (vectorSub currentLight.pos newStart)
          (vectorSub currentLight.pos newStart))) (vectorSub currentLight.pos newStart)) n
        * coef :=
      mul_nonneg (le_of_lt (lambert_cos_pos n _ _ h1 h2)) hcoef
    exact ⟨add_nonneg hc.1 (mul_nonneg (mul_nonneg hlam hl.1) hm.1),
      add_nonneg hc.2.1 (mul_nonneg (mul_nonneg hlam hl.2.1) hm.2.1),
      add_nonneg hc.2.2 (mul_nonneg (mul_nonneg hlam hl.2.2) hm.2.2)⟩

/-- The light loop keeps the colour non-negative. -/
theorem lightLoop_nonneg (sqrtf : α → α) (sc : scene α) (newStart n : vector α)
    (m : Fin 3) (coef : α) (c : colour α) (hsc : nonNegative sc) (hcoef : 0 ≤ coef)
    (hc : 0 ≤ c.red ∧ 0 ≤ c.green ∧ 0 ≤ c.blue) :
    0 ≤ (lightLoop sqrtf sc newStart n (sc.materials m) coef c).red ∧
    0 ≤ (lightLoop sqrtf sc newStart n (sc.materials m) coef c).green ∧
    0 ≤ (lightLoop sqrtf sc newStart n (sc.materials m) coef c).blue := by
  have hm : 0 ≤ (sc.materials m).diffuse.red ∧ 0 ≤ (sc.materials m).diffuse.green ∧
      0 ≤ (sc.materials m).diffuse.blue :=
    ⟨(hsc.1 m).1, (hsc.1 m).2.1, (hsc.1 m).2.2.1⟩
  unfold lightLoop
  simp only [List.foldl_cons, List.foldl_nil]
  have h0 := lightStep_nonneg sqrtf sc.spheres newStart n (sc.materials m) coef c
    (sc.lights 0) hcoef hm (hsc.2 0) hc
  have h1 := lightStep_nonneg sqrtf sc.spheres newStart n (sc.materials m) coef _
    (sc.lights 1) hcoef hm (hsc.2 1) h0
  exact lightStep_nonneg sqrtf sc.spheres newStart n (sc.materials m) coef _
    (sc.lights 2) hcoef hm (hsc.2 2) h1

/-- A completed execution of the loop body ends in `shadeAndReflect` with a material
of the scene. -/
theorem bounceBody_cont (sqrtf : α → α) (sc : scene α) (st st1 : traceState α)
    (h : bounceBody sqrtf sc st = .cont st1) :
    ∃ (newStart n : vector α) (m : Fin 3),
      st1 = shadeAndReflect sqrtf sc st newStart n (sc.materials m) := by
  rcases closestHit_currentSphere sqrtf sc.spheres st.r with hm | ⟨j, hj⟩
  · rw [bounceBody_miss sqrtf sc st hm] at h
    exact absurd h (by simp)
  · rw [bounceBody_hit sqrtf sc st j hj, bounceAt_eq] at h
    split_ifs at h with htemp
    cases hmat : index3 (sc.spheres j).material with
    | none =>
      rw [hmat] at h
      exact absurd h (by simp)
    | some m =>
      rw [hmat] at h
      simp only [bodyResult.cont.injEq] at h
      exact ⟨_, _, m, h.symm⟩

/-- The loop body keeps `coef` and the colour non-negative in a non-negative scene. -/
theorem bodyNext_nonneg (sqrtf : α → α) (sc : scene α) (st : traceState α)
    (hsc : nonNegative sc)
    (h : 0 ≤ st.coef ∧ 0 ≤ st.red ∧ 0 ≤ st.green ∧ 0 ≤ st.blue) :
    0 ≤ (bodyNext sqrtf sc st).coef ∧ 0 ≤ (bodyNext sqrtf sc st).red ∧
    0 ≤ (bodyNext sqrtf sc st).green ∧ 0 ≤ (bodyNext sqrtf sc st).blue := by
  unfold bodyNext
  cases hb : bounceBody sqrtf sc st with
  | undef => exact h
  | brk s1 =>
    rw [bounceBody_brk sqrtf sc st s1 hb]
    exact h
  | cont s1 =>
    obtain ⟨newStart, n, m, hs⟩ := bounceBody_cont sqrtf sc st s1 hb
    have hl := lightLoop_nonneg sqrtf sc newStart n m st.coef ⟨st.red, st.green, st.blue⟩
      hsc h.1 ⟨h.2.1, h.2.2.1, h.2.2.2⟩
    dsimp only
    rw [hs]
    exact ⟨mul_nonneg h.1 (hsc.1 m).2.2.2, hl.1, hl.2.1, hl.2.2⟩

/-- In a non-negative scene `coef` and the colour are non-negative after every
iteration of the bounce loop. -/
theorem stateAfter_nonneg (sqrtf : α → α) (sc : scene α) (r0 : ray α) (x y : Nat)
    (hsc : nonNegative sc) (n : Nat) :
    0 ≤ (stateAfter sqrtf sc (initialState r0 x y) n).coef ∧
    0 ≤ (stateAfter sqrtf sc (initialState r0 x y) n).red ∧
    0 ≤ (stateAfter sqrtf sc (initialState r0 x y) n).green ∧
    0 ≤ (stateAfter sqrtf sc (initialState r0 x y) n).blue := by
  induction n with
  | zero => simp [stateAfter, initialState]
  | succ k ih => exact bodyNext_nonneg sqrtf sc _ hsc ih

/-- The scene of `main` is non-negative. -/
theorem mainScene_nonNegative (scale : Int) : nonNegative (mainScene scale : scene α) := by
  constructor <;> intro i <;> fin_cases i <;> norm_num [mainScene, mainMaterials, mainLights]

/-- The indices of a buffer filled one byte further. -/
theorem filledIndices_succ (n : Nat) : filledIndices (n + 1) = (n : Int) :: filledIndices n := by
  simp [filledIndices, List.range_succ]

/-- An index is among those of a filled buffer exactly when it is in range. -/
theorem mem_filledIndices (n : Nat) (i : Int) :
    i ∈ filledIndices n ↔ 0 ≤ i ∧ i < (n : Int) := by
  simp only [filledIndices, List.mem_reverse, List.mem_map, List.mem_range]
  constructor
  · rintro ⟨k, hk, rfl⟩
    omega
  · rintro ⟨h0, h1⟩
    exact ⟨i.toNat, by omega, by omega⟩

/-- The indices of a filled buffer are pairwise different. -/
theorem filledIndices_nodup (n : Nat) : (filledIndices n).Nodup := by
  unfold filledIndices
  rw [List.nodup_reverse]
  exact (List.nodup_range n).map (fun a b h => by exact_mod_cast h)

/-- The scene of `main` has its material indices in range. -/
theorem mainScene_wf (scale : Int) (i : Fin 3) :
    index3 ((mainScene scale : scene α).spheres i).material ≠ none := by
  fin_cases i <;> simp [mainScene, mainSpheres, index3]

/-- The byte indices of a pixel row-major: for `x` below the width they determine the
pixel and the channel. -/
theorem index_injective (W : Int) (x y ch x1 y1 ch1 : Nat)
    (hx : (x : Int) < W) (hx1 : (x1 : Int) < W) (hch : ch < 3) (hch1 : ch1 < 3)
    (h : ((x : Int) + (y : Int) * W) * 3 + (ch : Int)
      = ((x1 : Int) + (y1 : Int) * W) * 3 + (ch1 : Int)) :
    x = x1 ∧ y = y1 ∧ ch = ch1 := by
  have hW : 0 < W := lt_of_le_of_lt (Int.natCast_nonneg x) hx
  have hp : (x : Int) + (y : Int) * W = (x1 : Int) + (y1 : Int) * W ∧ ch = ch1 := by
    generalize (x : Int) + (y : Int) * W = a at h
    generalize (x1 : Int) + (y1 : Int) * W = b at h
    omega
  have hy : (y : Int) = ((x : Int) + (y : Int) * W) / W := by
    rw [Int.add_mul_ediv_right _ _ (ne_of_gt hW),
      Int.ediv_eq_zero_of_lt (Int.natCast_nonneg x) hx, zero_add]
  have hy1 : (y1 : Int) = ((x1 : Int) + (y1 : Int) * W) / W := by
    rw [Int.add_mul_ediv_right _ _ (ne_of_gt hW),
      Int.ediv_eq_zero_of_lt (Int.natCast_nonneg x1) hx1, zero_add]
  have hyy : (y : Int) = (y1 : Int) := by
    rw [hy, hy1, hp.1]
  have hxx : (x : Int) = (x1 : Int) := by
    have := hp.1
    rw [hyy] at this
    linarith
  exact ⟨by exact_mod_cast hxx, by exact_mod_cast hyy, hp.2⟩

/-- A fold over the pixels of all rows is the fold over the rows of the folds over a row. -/
theorem foldl_flatMap_rows {σ β γ : Type} (f : σ → γ → σ) (g : β → List γ) (l : List β)
    (s : σ) :
    (l.flatMap g).foldl f s = l.foldl (fun s a => (g a).foldl f s) s := by
  induction l generalizing s with
  | nil => rfl
  | cons a l ih => simp [List.flatMap_cons, List.foldl_append, ih]

/-- The byte read after one more store. -/
theorem load_cons (k : Int) (v : Option Nat) (a : List (Int × Option Nat)) (i : Int) :
    load ((k, v) :: a) i = if k = i then v else load a i := by
  unfold load
  rw [List.find?_cons]
  by_cases h : k = i <;> simp [h]

/-- Holding the same framebuffer is reflexive. -/
theorem sameImage_refl {β : Type} (s : Option (mainState β)) : sameImage s s := by
  cases s with
  | none => trivial
  | some a => exact fun _ => rfl

/-- Holding the same framebuffer is transitive. -/
theorem sameImage_trans {β : Type} (s1 s2 s3 : Option (mainState β)) (h12 : sameImage s1 s2)
    (h23 : sameImage s2 s3) : sameImage s1 s3 := by
  cases s1 with
  | none =>
    cases s2 with
    | none => exact h23
    | some b => exact absurd h12 (by simp [sameImage])
  | some a =>
    cases s2 with
    | none => exact absurd h12 (by simp [sameImage])
    | some b =>
      cases s3 with
      | none => exact absurd h23 (by simp [sameImage])
      | some d =>
        intro i
        have e1 : ∀ i, load a.img i = load b.img i := h12
        have e2 : ∀ i, load b.img i = load d.img i := h23
        rw [e1 i, e2 i]

section FramebufferTheorems

variable [FloorRing α]

/-- C4: the render does not depend on the worker count: two settings of the globals
with the same `scale` (whatever `threads` and `output` are) give the same stores
into `img`, hence the same byte at every index; `-t` only sets `threads`. -/
theorem render_threads_independent (sqrtf : α → α) (r0 : ray α) (c1 c2 : config)
    (h : c1.scale = c2.scale) :
    render sqrtf c1 r0 = render sqrtf c2 r0 ∧
    (∀ i : Int, (render sqrtf c1 r0).map (fun ms => load ms.img i)
      = (render sqrtf c2 r0).map (fun ms => load ms.img i)) ∧
    (∀ (sscanf : String → Option Int) (c : config),
      readArgs sscanf ["task", "-t", "4"] c
        = some ⟨c.scale, (sscanf "4").getD c.threads, c.output⟩) := by
  have hr : render sqrtf c1 r0 = render sqrtf c2 r0 := by
    obtain ⟨s1, t1, o1⟩ := c1
    obtain ⟨s2, t2, o2⟩ := c2
    simp only at h
    subst h
    rfl
  refine ⟨hr, fun i => by rw [hr], ?_⟩
  intro sscanf c
  simp [readArgs, readArgsStep, List.range_succ]

/-- C4 at `scale = 1` with one worker against four workers. -/
theorem render_threads_independent_witness :
    (⟨1, 1, 0⟩ : config).scale = (⟨1, 4, 0⟩ : config).scale ∧
    render Rat.sqrt ⟨1, 1, 0⟩ (⟨⟨0, 0, 0⟩, ⟨0, 0, 0⟩⟩ : ray ℚ)
      = render Rat.sqrt ⟨1, 4, 0⟩ ⟨⟨0, 0, 0⟩, ⟨0, 0, 0⟩⟩ :=
  ⟨rfl, (render_threads_independent Rat.sqrt ⟨⟨0, 0, 0⟩, ⟨0, 0, 0⟩⟩ ⟨1, 1, 0⟩ ⟨1, 4, 0⟩ rfl).1⟩

/-- The conversion to `unsigned char` of a value in `[0, 256)`. -/
theorem toUnsignedChar_nonneg (v : α) (h0 : 0 ≤ v) (h1 : v < 256) :
    toUnsignedChar v = some ⌊v⌋.toNat := by
  unfold toUnsignedChar
  simp only [h0, if_true]
  have hf0 : (0 : Int) ≤ ⌊v⌋ := Int.floor_nonneg.mpr h0
  have hf1 : ⌊v⌋ ≤ 255 := by
    have : ⌊v⌋ < 256 := Int.floor_lt.mpr (by exact_mod_cast h1)
    omega
  rw [if_pos ⟨hf0, hf1⟩]

/-- From a scaled value of -1 downward the conversion is out of range. -/
theorem channelByte_below (v : α) (h : v * 255 ≤ -1) : channelByte v = none := by
  have hm : min (v * 255) 255 = v * 255 := by
    unfold min
    rw [if_pos (lt_of_le_of_lt h (by norm_num))]
  unfold channelByte toUnsignedChar
  rw [hm]
  have hneg : ¬ (0 ≤ v * 255) := not_le.mpr (lt_of_le_of_lt h (by norm_num))
  have hc : ⌈v * 255⌉ ≤ -1 := by
    rw [Int.ceil_le]
    simpa using h
  simp only [hneg, if_false]
  rw [if_neg]
  intro hh
  omega

/-- The byte stored for a black channel is 0. -/
theorem channelByte_zero : channelByte (0 : α) = some 0 := by
  have hm : min ((0 : α) * 255) 255 = 0 := by
    unfold min
    rw [if_pos (by norm_num)]
    norm_num
  unfold channelByte
  rw [hm, toUnsignedChar_nonneg _ (le_refl _) (by norm_num)]
  simp

/-- The byte stored for any channel value: 255 when the scaled value exceeds 255, the
integer part of the scaled value when that lies in `[0, 255]`, and 0 when it lies
strictly between -1 and 0; from -1 downward the conversion to `unsigned char` is out
of range. -/
theorem channelByte_spec (v : α) :
    (255 < v * 255 → channelByte v = some 255) ∧
    (0 ≤ v * 255 → v * 255 ≤ 255 → channelByte v = some ⌊v * 255⌋.toNat) ∧
    (-1 < v * 255 → v * 255 < 0 → channelByte v = some 0) ∧
    (v * 255 ≤ -1 → channelByte v = none) := by
  refine ⟨fun h => ?_, fun h0 h1 => ?_, fun h0 h1 => ?_, fun h => ?_⟩
  · have hm : min (v * 255) 255 = 255 := by
      unfold min
      rw [if_neg (not_lt.mpr (le_of_lt h))]
    unfold channelByte
    rw [hm, toUnsignedChar_nonneg _ (by norm_num) (by norm_num)]
    have : ⌊(255 : α)⌋ = 255 := by
      simp
    rw [this]
    rfl
  · have hm : min (v * 255) 255 = ⌊v * 255⌋ ∨ min (v * 255) 255 = v * 255 := by
      unfold min
      split_ifs with hlt
      · exact Or.inr rfl
      · have : v * 255 = 255 := le_antisymm h1 (not_lt.mp hlt)
        exact Or.inr this.symm
    have hm2 : min (v * 255) 255 = v * 255 := by
      rcases hm with h | h
      · unfold min at h ⊢
        split_ifs with hlt
        · rfl
        · exact (le_antisymm h1 (not_lt.mp hlt)).symm
      · exact h
    unfold channelByte
    rw [hm2, toUnsignedChar_nonneg _ h0 (lt_of_le_of_lt h1 (by norm_num))]
  · have hm : min (v * 255) 255 = v * 255 := by
      unfold min
      rw [if_pos (lt_trans h1 (by norm_num))]
    unfold channelByte toUnsignedChar
    rw [hm]
    have hc : ⌈v * 255⌉ = 0 := by
      rw [Int.ceil_eq_iff]
      constructor
      · simpa using h0
      · simpa using le_of_lt h1
    simp [not_le.mpr h1, hc]
  · exact channelByte_below v h

/-- A channel value of `-1`, which no pixel of the scene of `main` accumulates, has
the scaled value `-255`, and its conversion is out of range. -/
theorem channelByte_minus_one :
    ((-1 : ℚ) * 255 < 0) ∧ channelByte (-1 : ℚ) ≠ some 0 := by
  refine ⟨by norm_num, ?_⟩
  rw [channelByte_below (-1 : ℚ) (by norm_num)]
  simp

/-- C9: a pixel whose primary ray has no candidate distance with any sphere leaves the
bounce loop at the first closest-hit query (one execution of the body, by `break`,
nothing added to the colour) and the three bytes stored for it are 0, 0, 0; pixel
`(0, 0)` of the scene of `main` at `scale = 1` is such a pixel. -/
theorem miss_black (sqrtf : α → α) (c : config) (sc : scene α) (ms : mainState α)
    (x y : Nat)
    (hmiss : ∀ i : Fin 3,
      ¬ hasCandidate sqrtf (initialState ms.r x y).r (sc.spheres i) epsilon 20000) :
    bounceBody sqrtf sc (initialState ms.r x y) = .brk (initialState ms.r x y) ∧
    (∀ fuel, bounceLoop sqrtf sc (fuel + 1) (initialState ms.r x y)
      = .done (initialState ms.r x y) 1) ∧
    (initialState ms.r x y).red = 0 ∧ (initialState ms.r x y).green = 0 ∧
    (initialState ms.r x y).blue = 0 ∧
    pixelIteration sqrtf c sc y (some ms) x
      = some ⟨(initialState ms.r x y).r,
          [(((x : Int) + (y : Int) * WIDTH c) * 3 + 2, some 0),
           (((x : Int) + (y : Int) * WIDTH c) * 3 + 1, some 0),
           (((x : Int) + (y : Int) * WIDTH c) * 3 + 0, some 0)] ++ ms.img⟩ ∧
    (∀ (r0 : ray α) (i : Fin 3),
      ¬ hasCandidate sqrtf (initialState r0 0 0).r ((mainScene 1 : scene α).spheres i)
        epsilon 20000) := by
  have hb : bounceBody sqrtf sc (initialState ms.r x y) = .brk (initialState ms.r x y) :=
    bounceBody_miss sqrtf sc _ (closestHit_miss sqrtf sc.spheres _ hmiss)
  have hl : ∀ fuel, bounceLoop sqrtf sc (fuel + 1) (initialState ms.r x y)
      = .done (initialState ms.r x y) 1 := by
    intro fuel
    rw [bounceLoop, hb]
  have hz : channelByte (0 : α) = some 0 := channelByte_zero
  refine ⟨hb, hl, rfl, rfl, rfl, ?_, mainScene_origin_miss sqrtf⟩
  have h15 : bounceLoop sqrtf sc 15 (initialState ms.r x y)
      = .done (initialState ms.r x y) 1 := hl 14
  unfold pixelIteration
  dsimp only
  rw [h15]
  dsimp only
  have h0 : (initialState ms.r x y).red = 0 := rfl
  have h1 : (initialState ms.r x y).green = 0 := rfl
  have h2 : (initialState ms.r x y).blue = 0 := rfl
  simp only [pixelStores, h0, h1, h2, hz, List.reverse_cons, List.reverse_nil, List.nil_append,
    List.cons_append]

/-- C9 at pixel `(0, 0)` of the scene of `main` at `scale = 1`. -/
theorem miss_black_witness :
    (∀ i : Fin 3, ¬ hasCandidate Rat.sqrt
      (initialState (⟨⟨⟨0, 0, 0⟩, ⟨0, 0, 0⟩⟩, []⟩ : mainState ℚ).r 0 0).r
      ((mainScene 1 : scene ℚ).spheres i) epsilon 20000) ∧
    pixelIteration Rat.sqrt ⟨1, 1, 0⟩ (mainScene 1 : scene ℚ) 0
        (some ⟨⟨⟨0, 0, 0⟩, ⟨0, 0, 0⟩⟩, []⟩) 0
      = some ⟨⟨⟨0, 0, -2000⟩, ⟨0, 0, 1⟩⟩, [(2, some 0), (1, some 0), (0, some 0)]⟩ := by
  refine ⟨mainScene_origin_miss Rat.sqrt _, ?_⟩
  have h := (miss_black Rat.sqrt ⟨1, 1, 0⟩ (mainScene 1 : scene ℚ)
    ⟨⟨⟨0, 0, 0⟩, ⟨0, 0, 0⟩⟩, []⟩ 0 0 (mainScene_origin_miss Rat.sqrt _)).2.2.2.2.2.1
  rw [h]
  simp [initialState, WIDTH]

/-- With material indices in range the body of the loop over `x` stores the three
bytes of the pixel at the indices `3p`, `3p + 1`, `3p + 2`, `p = x + y * WIDTH`. -/
theorem pixelIteration_indices (sqrtf : α → α) (c : config) (sc : scene α) (W : Nat)
    (hW : WIDTH c = (W : Int))
    (hwf : ∀ i : Fin 3, index3 (sc.spheres i).material ≠ none)
    (ms : mainState α) (x y : Nat) :
    ∃ ms1 : mainState α, pixelIteration sqrtf c sc y (some ms) x = some ms1 ∧
      ms1.img.map Prod.fst
        = ((3 * (y * W + x) + 2 : Nat) : Int) :: ((3 * (y * W + x) + 1 : Nat) : Int)
          :: ((3 * (y * W + x) : Nat) : Int) :: ms.img.map Prod.fst := by
  obtain ⟨st, k, h, _, _⟩ := bounceLoop_bound sqrtf sc hwf 15 (initialState ms.r x y)
    (by decide) (by simp [initialState])
  refine ⟨⟨st.r, (pixelStores c x y st).reverse ++ ms.img⟩, ?_, ?_⟩
  · unfold pixelIteration
    dsimp only
    rw [h]
  · simp only [pixelStores, hW, List.reverse_cons, List.reverse_nil, List.nil_append,
      List.cons_append, List.map_cons, List.map_append, List.singleton_append]
    refine congrArg₂ _ ?_ (congrArg₂ _ ?_ (congrArg₂ _ ?_ rfl))
    · push_cast; ring
    · push_cast; ring
    · push_cast; ring

/-- The loop over `x` up to `k` fills the bytes of the pixels `0 .. k - 1` of row `y`. -/
theorem row_indices (sqrtf : α → α) (c : config) (sc : scene α) (W : Nat)
    (hW : WIDTH c = (W : Int))
    (hwf : ∀ i : Fin 3, index3 (sc.spheres i).material ≠ none)
    (y : Nat) (ms : mainState α) (hms : ms.img.map Prod.fst = filledIndices (3 * (y * W))) :
    ∀ k : Nat, ∃ ms1 : mainState α,
      (List.range k).foldl (pixelIteration sqrtf c sc y) (some ms) = some ms1 ∧
      ms1.img.map Prod.fst = filledIndices (3 * (y * W + k)) := by
  intro k
  induction k with
  | zero => exact ⟨ms, rfl, hms⟩
  | succ k ih =>
    obtain ⟨ms1, h1, h2⟩ := ih
    obtain ⟨ms2, h3, h4⟩ := pixelIteration_indices sqrtf c sc W hW hwf ms1 k y
    refine ⟨ms2, ?_, ?_⟩
    · rw [List.range_succ, List.foldl_append, h1]
      exact h3
    · rw [h4, h2]
      have he : 3 * (y * W + (k + 1)) = 3 * (y * W + k) + 1 + 1 + 1 := by ring
      rw [he, filledIndices_succ, filledIndices_succ, filledIndices_succ]

/-- The render loops up to row `h` fill the bytes of the rows `0 .. h - 1`. -/
theorem rows_indices (sqrtf : α → α) (c : config) (sc : scene α) (W : Nat)
    (hW : WIDTH c = (W : Int))
    (hwf : ∀ i : Fin 3, index3 (sc.spheres i).material ≠ none) (r0 : ray α) :
    ∀ h : Nat, ∃ ms1 : mainState α,
      (List.range h).foldl
        (fun ms y => (List.range W).foldl (pixelIteration sqrtf c sc y) ms)
        (some ⟨r0, []⟩) = some ms1 ∧
      ms1.img.map Prod.fst = filledIndices (3 * (h * W)) := by
  intro h
  induction h with
  | zero => exact ⟨⟨r0, []⟩, rfl, by simp [filledIndices]⟩
  | succ h ih =>
    obtain ⟨ms1, h1, h2⟩ := ih
    obtain ⟨ms2, h3, h4⟩ := row_indices sqrtf c sc W hW hwf h ms1 h2 W
    refine ⟨ms2, ?_, ?_⟩
    · rw [List.range_succ, List.foldl_append, h1]
      exact h3
    · rw [h4]
      congr 1
      ring

/-- C13: framebuffer addressing is row-major, in bounds and complete: for
`1 <= scale <= 38` the size `3*WIDTH*HEIGHT` fits a 32-bit `int` (and for `scale >= 1`
it fits exactly when `scale <= 38`); every index `(x + y*WIDTH)*3 + c` with `x` below
`WIDTH`, `y` below `HEIGHT` and `c` below 3 is below the allocated size; different
triples give different indices; and the render loops end having stored to every
index in `[0, 3*WIDTH*HEIGHT)` exactly once and to no other. -/
theorem framebuffer_addressing (sqrtf : α → α) (c : config) (r0 : ray α)
    (h1 : 1 ≤ c.scale) (h38 : c.scale ≤ 38) :
    3 * WIDTH c * HEIGHT c ≤ 2147483647 ∧
    (∀ c1 : config, 1 ≤ c1.scale →
      (3 * WIDTH c1 * HEIGHT c1 ≤ 2147483647 ↔ c1.scale ≤ 38)) ∧
    (∀ x y ch : Nat, (x : Int) < WIDTH c → (y : Int) < HEIGHT c → ch < 3 →
      0 ≤ ((x : Int) + (y : Int) * WIDTH c) * 3 + (ch : Int) ∧
      ((x : Int) + (y : Int) * WIDTH c) * 3 + (ch : Int) < 3 * WIDTH c * HEIGHT c) ∧
    (∀ x y ch x1 y1 ch1 : Nat, (x : Int) < WIDTH c → (x1 : Int) < WIDTH c →
      ch < 3 → ch1 < 3 →
      ((x : Int) + (y : Int) * WIDTH c) * 3 + (ch : Int)
        = ((x1 : Int) + (y1 : Int) * WIDTH c) * 3 + (ch1 : Int) →
      x = x1 ∧ y = y1 ∧ ch = ch1) ∧
    (∃ ms : mainState α, render sqrtf c r0 = some ms ∧
      (∀ i : Int, 0 ≤ i → i < 3 * WIDTH c * HEIGHT c →
        (ms.img.map Prod.fst).count i = 1) ∧
      (∀ i : Int, i ∈ ms.img.map Prod.fst → 0 ≤ i ∧ i < 3 * WIDTH c * HEIGHT c)) := by
  have hfit : ∀ c1 : config, 1 ≤ c1.scale →
      (3 * WIDTH c1 * HEIGHT c1 ≤ 2147483647 ↔ c1.scale ≤ 38) := by
    intro c1 hc1
    unfold WIDTH HEIGHT
    constructor
    · intro h
      by_contra hn
      have h39 : 39 ≤ c1.scale := by omega
      nlinarith
    · intro h
      nlinarith
  refine ⟨(hfit c h1).mpr h38, hfit, ?_, ?_, ?_⟩
  · intro x y ch hx hy hch
    have hx0 : (0 : Int) ≤ x := Int.natCast_nonneg x
    have hy0 : (0 : Int) ≤ y := Int.natCast_nonneg y
    have hW : 0 ≤ WIDTH c := le_trans hx0 (le_of_lt hx)
    have hyW : ((y : Int) + 1) * WIDTH c ≤ HEIGHT c * WIDTH c :=
      mul_le_mul_of_nonneg_right (by omega) hW
    have hyW0 : 0 ≤ (y : Int) * WIDTH c := mul_nonneg hy0 hW
    constructor
    · have : (0 : Int) ≤ ch := Int.natCast_nonneg ch
      nlinarith
    · have hch1 : (ch : Int) < 3 := by exact_mod_cast hch
      nlinarith
  · intro x y ch x1 y1 ch1 hx hx1 hch hch1 h
    exact index_injective (WIDTH c) x y ch x1 y1 ch1 hx hx1 hch hch1 h
  · have hWn : WIDTH c = ((WIDTH c).toNat : Int) := by
      unfold WIDTH
      omega
    have hHn : HEIGHT c = ((HEIGHT c).toNat : Int) := by
      unfold HEIGHT
      omega
    obtain ⟨ms, hr, hidx⟩ := rows_indices sqrtf c (mainScene c.scale) (WIDTH c).toNat hWn
      (mainScene_wf c.scale) r0 (HEIGHT c).toNat
    have hsize : ((3 * ((HEIGHT c).toNat * (WIDTH c).toNat) : Nat) : Int)
        = 3 * WIDTH c * HEIGHT c := by
      push_cast
      rw [← hWn, ← hHn]
      ring
    refine ⟨ms, hr, ?_, ?_⟩
    · intro i h0 hlt
      rw [hidx]
      apply List.count_eq_one_of_mem (filledIndices_nodup _)
      rw [mem_filledIndices, hsize]
      exact ⟨h0, hlt⟩
    · intro i hi
      rw [hidx, mem_filledIndices, hsize] at hi
      exact hi

/-- C13 at `scale = 1`. -/
theorem framebuffer_addressing_witness :
    (1 : Int) ≤ (⟨1, 1, 0⟩ : config).scale ∧ (⟨1, 1, 0⟩ : config).scale ≤ 38 ∧
    ∃ ms : mainState ℚ, render Rat.sqrt ⟨1, 1, 0⟩ ⟨⟨0, 0, 0⟩, ⟨0, 0, 0⟩⟩ = some ms ∧
      (∀ i : Int, 0 ≤ i → i < 3 * WIDTH ⟨1, 1, 0⟩ * HEIGHT ⟨1, 1, 0⟩ →
        (ms.img.map Prod.fst).count i = 1) ∧
      (∀ i : Int, i ∈ ms.img.map Prod.fst →
        0 ≤ i ∧ i < 3 * WIDTH ⟨1, 1, 0⟩ * HEIGHT ⟨1, 1, 0⟩) :=
  ⟨by decide, by decide,
    (framebuffer_addressing Rat.sqrt ⟨1, 1, 0⟩ (⟨⟨0, 0, 0⟩, ⟨0, 0, 0⟩⟩ : ray ℚ)
      (by decide) (by decide)).2.2.2.2⟩

/-- The body of the pixel loop in terms of the trace of the pixel alone: the initial
state overwrites the global ray, so the trace does not depend on the incoming state. -/
theorem pixelIteration_eq (sqrtf : α → α) (c : config) (sc : scene α) (x y : Nat)
    (ms : mainState α) :
    pixelIteration sqrtf c sc y (some ms) x
      = match bounceLoop sqrtf sc 15 (initialState ⟨⟨0, 0, 0⟩, ⟨0, 0, 0⟩⟩ x y) with
        | .done st _ => some ⟨st.r, (pixelStores c x y st).reverse ++ ms.img⟩
        | _ => none := by
  rfl

/-- The body of the pixel loop takes equal framebuffers to equal framebuffers. -/
theorem pixelIteration_sameImage (sqrtf : α → α) (c : config) (sc : scene α) (x y : Nat)
    (s1 s2 : Option (mainState α)) (h : sameImage s1 s2) :
    sameImage (pixelIteration sqrtf c sc y s1 x) (pixelIteration sqrtf c sc y s2 x) := by
  cases s1 with
  | none =>
    cases s2 with
    | none => exact h
    | some b => exact absurd h (by simp [sameImage])
  | some a =>
    cases s2 with
    | none => exact absurd h (by simp [sameImage])
    | some b =>
      rw [pixelIteration_eq, pixelIteration_eq]
      cases bounceLoop sqrtf sc 15 (initialState ⟨⟨0, 0, 0⟩, ⟨0, 0, 0⟩⟩ x y) with
      | outOfFuel => trivial
      | undef => trivial
      | done st k =>
        intro i
        have hi : ∀ i, load a.img i = load b.img i := h
        simp only [pixelStores, List.reverse_cons, List.reverse_nil, List.nil_append,
          List.cons_append, load_cons, hi i]

/-- Visiting two pixels of a row-major buffer in either order gives the same
framebuffer. -/
theorem pixelIteration_swap (sqrtf : α → α) (c : config) (sc : scene α)
    (x y x1 y1 : Nat) (hx : (x : Int) < WIDTH c) (hx1 : (x1 : Int) < WIDTH c)
    (s1 s2 : Option (mainState α)) (h : sameImage s1 s2) :
    sameImage
      (pixelIteration sqrtf c sc y (pixelIteration sqrtf c sc y1 s1 x1) x)
      (pixelIteration sqrtf c sc y1 (pixelIteration sqrtf c sc y s2 x) x1) := by
  by_cases hsame : x = x1 ∧ y = y1
  · obtain ⟨hxx, hyy⟩ := hsame
    subst hxx hyy
    exact pixelIteration_sameImage sqrtf c sc x y _ _
      (pixelIteration_sameImage sqrtf c sc x y _ _ h)
  · cases s1 with
    | none =>
      cases s2 with
      | none => trivial
      | some b => exact absurd h (by simp [sameImage])
    | some a =>
      cases s2 with
      | none => exact absurd h (by simp [sameImage])
      | some b =>
        have hi : ∀ i, load a.img i = load b.img i := h
        rw [pixelIteration_eq sqrtf c sc x1 y1 a, pixelIteration_eq sqrtf c sc x y b]
        cases h1 : bounceLoop sqrtf sc 15 (initialState ⟨⟨0, 0, 0⟩, ⟨0, 0, 0⟩⟩ x1 y1) with
        | outOfFuel =>
          cases h0 : bounceLoop sqrtf sc 15 (initialState ⟨⟨0, 0, 0⟩, ⟨0, 0, 0⟩⟩ x y) with
          | outOfFuel => trivial
          | undef => trivial
          | done st k =>
            simp only [pixelIteration_eq, h1]
            trivial
        | undef =>
          cases h0 : bounceLoop sqrtf sc 15 (initialState ⟨⟨0, 0, 0⟩, ⟨0, 0, 0⟩⟩ x y) with
          | outOfFuel => trivial
          | undef => trivial
          | done st k =>
            simp only [pixelIteration_eq, h1]
            trivial
        | done st1 k1 =>
          cases h0 : bounceLoop sqrtf sc 15 (initialState ⟨⟨0, 0, 0⟩, ⟨0, 0, 0⟩⟩ x y) with
          | outOfFuel =>
            simp only [pixelIteration_eq, h0]
            trivial
          | undef =>
            simp only [pixelIteration_eq, h0]
            trivial
          | done st k =>
            simp only [pixelIteration_eq, h0, h1]
            intro i
            have hne : (x : Int) + (y : Int) * WIDTH c ≠ (x1 : Int) + (y1 : Int) * WIDTH c := by
              intro he
              have := index_injective (WIDTH c) x y 0 x1 y1 0 hx hx1 (by decide) (by decide)
                (by rw [he])
              exact hsame ⟨this.1, this.2.1⟩
            simp only [pixelStores]
            generalize (x : Int) + (y : Int) * WIDTH c = P at hne ⊢
            generalize (x1 : Int) + (y1 : Int) * WIDTH c = Q at hne ⊢
            simp only [List.reverse_cons, List.reverse_nil, List.nil_append,
              List.cons_append, load_cons, hi i]
            split_ifs <;> first | rfl | omega

/-- Visiting the pixels of a row-major buffer in two orders that are permutations of
each other gives the same framebuffer. -/
theorem renderOrder_perm (sqrtf : α → α) (c : config) (sc : scene α)
    (o1 o2 : List (Nat × Nat)) (hp : o1.Perm o2) :
    (∀ p ∈ o1, (p.1 : Int) < WIDTH c) →
    ∀ s1 s2 : Option (mainState α), sameImage s1 s2 →
      sameImage (renderOrder sqrtf c sc o1 s1) (renderOrder sqrtf c sc o2 s2) := by
  induction hp with
  | nil =>
    intro _ s1 s2 h
    exact h
  | cons p _ ih =>
    intro hr s1 s2 h
    exact ih (fun q hq => hr q (List.mem_cons_of_mem _ hq)) _ _
      (pixelIteration_sameImage sqrtf c sc p.1 p.2 s1 s2 h)
  | swap a b l =>
    intro hr s1 s2 h
    have hb : (b.1 : Int) < WIDTH c := hr b (List.mem_cons_self _ _)
    have ha : (a.1 : Int) < WIDTH c :=
      hr a (List.mem_cons_of_mem _ (List.mem_cons_self _ _))
    have hsw := pixelIteration_swap sqrtf c sc a.1 a.2 b.1 b.2 ha hb s1 s2 h
    have hrest : ∀ (l : List (Nat × Nat)) (t1 t2 : Option (mainState α)), sameImage t1 t2 →
        sameImage (renderOrder sqrtf c sc l t1) (renderOrder sqrtf c sc l t2) := by
      intro l
      induction l with
      | nil => intro t1 t2 ht; exact ht
      | cons q l ihl =>
        intro t1 t2 ht
        exact ihl _ _ (pixelIteration_sameImage sqrtf c sc q.1 q.2 t1 t2 ht)
    exact hrest l _ _ hsw
  | trans hp1 _ ih1 ih2 =>
    intro hr s1 s2 h
    exact sameImage_trans _ _ _ (ih1 hr s1 s2 h)
      (ih2 (fun q hq => hr q (hp1.symm.subset hq)) s2 s2 (sameImage_refl s2))

/-- The render loops of `main` visit the pixels in row-major order. -/
theorem render_eq_renderOrder (sqrtf : α → α) (c : config) (r0 : ray α) :
    render sqrtf c r0
      = renderOrder sqrtf c (mainScene c.scale) (rowMajor c) (some ⟨r0, []⟩) := by
  unfold render renderOrder rowMajor
  rw [foldl_flatMap_rows]
  congr 1
  funext ms y
  rw [List.foldl_map]

/-- C14: the bytes written for pixel `(x, y)` depend only on `x`, `y`, `scale` and the
scene: whatever the global ray and the stores left by the pixels rendered before, the
iteration ends with the same ray and adds the same three stores (or is undefined in
both cases); hence visiting the pixels in any order gives the same framebuffer as
the render loops of `main`. -/
theorem pixel_independent (sqrtf : α → α) (c : config) (sc : scene α) :
    (∀ (x y : Nat) (r1 r2 : ray α) (img : List (Int × Option Nat)),
      pixelIteration sqrtf c sc y (some ⟨r1, img⟩) x
        = pixelIteration sqrtf c sc y (some ⟨r2, img⟩) x) ∧
    (∀ (x y : Nat) (ms1 ms2 : mainState α),
      (pixelIteration sqrtf c sc y (some ms1) x = none ∧
        pixelIteration sqrtf c sc y (some ms2) x = none) ∨
      ∃ (r : ray α) (stores : List (Int × Option Nat)), stores.length = 3 ∧
        pixelIteration sqrtf c sc y (some ms1) x = some ⟨r, stores ++ ms1.img⟩ ∧
        pixelIteration sqrtf c sc y (some ms2) x = some ⟨r, stores ++ ms2.img⟩) ∧
    (∀ (o1 o2 : List (Nat × Nat)) (r1 r2 : ray α), o1.Perm o2 →
      (∀ p ∈ o1, (p.1 : Int) < WIDTH c) →
      sameImage (renderOrder sqrtf c sc o1 (some ⟨r1, []⟩))
        (renderOrder sqrtf c sc o2 (some ⟨r2, []⟩))) ∧
    (∀ (order : List (Nat × Nat)) (r1 r2 : ray α), order.Perm (rowMajor c) →
      sameImage (renderOrder sqrtf c (mainScene c.scale) order (some ⟨r1, []⟩))
        (render sqrtf c r2)) := by
  have hnil : ∀ r1 r2 : ray α,
      sameImage (some (⟨r1, []⟩ : mainState α)) (some (⟨r2, []⟩ : mainState α)) :=
    fun _ _ _ => rfl
  refine ⟨fun x y r1 r2 img => rfl, ?_, ?_, ?_⟩
  · intro x y ms1 ms2
    rw [pixelIteration_eq, pixelIteration_eq]
    cases bounceLoop sqrtf sc 15 (initialState ⟨⟨0, 0, 0⟩, ⟨0, 0, 0⟩⟩ x y) with
    | outOfFuel => exact Or.inl ⟨rfl, rfl⟩
    | undef => exact Or.inl ⟨rfl, rfl⟩
    | done st k => exact Or.inr ⟨st.r, (pixelStores c x y st).reverse, rfl, rfl, rfl⟩
  · intro o1 o2 r1 r2 hp hr
    exact renderOrder_perm sqrtf c sc o1 o2 hp hr _ _ (hnil r1 r2)
  · intro order r1 r2 hp
    rw [render_eq_renderOrder]
    apply renderOrder_perm sqrtf c (mainScene c.scale) order (rowMajor c) hp _ _ _ (hnil r1 r2)
    intro p hpm
    have hmem := hp.subset hpm
    simp only [rowMajor, List.mem_flatMap, List.mem_map, List.mem_range] at hmem
    obtain ⟨y, _, x, hx, rfl⟩ := hmem
    dsimp only
    omega

/-- The byte stored for a non-negative channel is the channel scaled by 255 and
clamped to `[0, 255]`. -/
theorem channelByte_clamped (v : α) (h : 0 ≤ v) : clampedTo v (channelByte v) := by
  have h255 : 0 ≤ v * 255 := mul_nonneg h (by norm_num)
  refine ⟨(channelByte_spec v).1, fun hneg => absurd h255 (not_le.mpr hneg),
    (channelByte_spec v).2.1⟩

/-- C8: for every pixel, at every scale, each of the three values written to `img` is
the channel of the accumulated colour scaled by 255 and clamped to `[0, 255]`: 255
when the scaled value exceeds 255, 0 when it is below 0, its integer part otherwise.
The accumulated colours are those the bounce loop ends with in the scene of `main`
(and in any scene with non-negative materials and lights); the pixel iteration
stores the bytes of exactly these three channels. -/
theorem stored_bytes_clamped (sqrtf : α → α) (c : config) (ms : mainState α) (x y : Nat) :
    (∀ (fuel : Nat) (st : traceState α) (k : Nat),
      bounceLoop sqrtf (mainScene c.scale) fuel (initialState ms.r x y) = .done st k →
      clampedTo st.red (channelByte st.red) ∧ clampedTo st.green (channelByte st.green) ∧
      clampedTo st.blue (channelByte st.blue)) ∧
    (∃ (st : traceState α) (k : Nat),
      bounceLoop sqrtf (mainScene c.scale) 15 (initialState ms.r x y) = .done st k ∧
      pixelIteration sqrtf c (mainScene c.scale) y (some ms) x
        = some ⟨st.r,
            [(((x : Int) + (y : Int) * WIDTH c) * 3 + 2, channelByte st.blue),
             (((x : Int) + (y : Int) * WIDTH c) * 3 + 1, channelByte st.green),
             (((x : Int) + (y : Int) * WIDTH c) * 3 + 0, channelByte st.red)] ++ ms.img⟩ ∧
      clampedTo st.red (channelByte st.red) ∧ clampedTo st.green (channelByte st.green) ∧
      clampedTo st.blue (channelByte st.blue)) ∧
    (∀ (sc : scene α) (r0 : ray α) (x1 y1 fuel : Nat) (st : traceState α) (k : Nat),
      nonNegative sc →
      bounceLoop sqrtf sc fuel (initialState r0 x1 y1) = .done st k →
      clampedTo st.red (channelByte st.red) ∧ clampedTo st.green (channelByte st.green) ∧
      clampedTo st.blue (channelByte st.blue)) := by
  have hgen : ∀ (sc : scene α) (r0 : ray α) (x1 y1 fuel : Nat) (st : traceState α) (k : Nat),
      nonNegative sc →
      bounceLoop sqrtf sc fuel (initialState r0 x1 y1) = .done st k →
      clampedTo st.red (channelByte st.red) ∧ clampedTo st.green (channelByte st.green) ∧
      clampedTo st.blue (channelByte st.blue) := by
    intro sc r0 x1 y1 fuel st k hsc h
    have hst := bounceLoop_stateAfter sqrtf sc fuel _ st k h
    have hn := stateAfter_nonneg sqrtf sc r0 x1 y1 hsc k
    rw [← hst] at hn
    exact ⟨channelByte_clamped _ hn.2.1, channelByte_clamped _ hn.2.2.1,
      channelByte_clamped _ hn.2.2.2⟩
  refine ⟨fun fuel st k h => hgen _ ms.r x y fuel st k (mainScene_nonNegative c.scale) h, ?_,
    hgen⟩
  obtain ⟨st, k, h, _, _⟩ := bounceLoop_bound sqrtf (mainScene c.scale)
    (mainScene_wf c.scale) 15 (initialState ms.r x y) (by decide) (by simp [initialState])
  refine ⟨st, k, h, ?_, hgen _ ms.r x y 15 st k (mainScene_nonNegative c.scale) h⟩
  unfold pixelIteration
  dsimp only
  rw [h]
  simp only [pixelStores, List.reverse_cons, List.reverse_nil, List.nil_append,
    List.cons_append]

end FramebufferTheorems

end Task
